import Mathlib

/-!
Verification development for the simple-http client library.

The Rust sources are shallowly embedded: byte slices become `List Nat`
(each element a byte value), fallible code returns `Except`, and code
paths that can panic (out-of-bounds slicing, `unwrap`/`expect` on `None`,
unsigned underflow) are modelled by `Option`, with `none` marking a panic.
Machine-integer arithmetic on `usize` is modelled on `Nat` with the
underflow checks made explicit at each subtraction site.
-/

namespace SimpleHttp

/-- Byte list of an ASCII string literal. -/
def bytes (s : String) : List Nat := s.data.map Char.toNat

/-! ## httparse.rs -/

/-- `ltrim` from httparse.rs: drop leading space bytes. -/
def ltrim : List Nat → List Nat
  | [] => []
  | b :: rest => if b = 32 then ltrim rest else b :: rest

/-- `rtrim` from httparse.rs.  While the last byte is a space the code slices
to `len - 2`, dropping one extra byte per removed space.  With `len < 2` the
`len - 2` index underflows and the slice panics (modelled as `none`); on the
empty slice `val.get(val.len() - 1)` wraps and returns `None` in release
builds, ending the loop. -/
def rtrim (val : List Nat) : Option (List Nat) :=
  if val.getLast? = some 32 then
    if val.length < 2 then none
    else rtrim (val.take (val.length - 2))
  else some val
termination_by val.length
decreasing_by simp [List.length_take]; omega

/-- Rust `slice::split` on a separator byte: always yields at least one
(possibly empty) segment. -/
def splitOnByte (sep : Nat) : List Nat → List (List Nat)
  | [] => [[]]
  | b :: rest =>
    if b = sep then [] :: splitOnByte sep rest
    else
      match splitOnByte sep rest with
      | s :: ss => (b :: s) :: ss
      | [] => [[b]]

/-- Parse errors from httparse.rs, payloads as byte lists. -/
inductive ParseError where
  | WrongStatusReason : ParseError
  | WrongStatusHeader : List Nat → ParseError
  | WrongStatusCode : List Nat → ParseError
  | WrongHeader : List Nat → ParseError
deriving Repr, DecidableEq

/-- `Header` items from httparse.rs. -/
inductive Header where
  | status (code : Nat) (version : List Nat) (reason : List Nat) : Header
  | header (name : List Nat) (value : List Nat) : Header
deriving Repr, DecidableEq

/-- `parse_header` from httparse.rs: split the line on every `:` byte, the
name is the first segment and the value the second; both are passed through
`rtrim` then `ltrim`.  `none` models a panic inside `rtrim`. -/
def parse_header (input : List Nat) : Option (Except ParseError (List Nat × List Nat)) :=
  let segs := splitOnByte 58 input
  match rtrim segs.headI with
  | none => none
  | some n =>
    let name := ltrim n
    match segs[1]? with
    | none => some (.error (.WrongHeader name))
    | some v =>
      match rtrim v with
      | none => none
      | some v2 => some (.ok (name, ltrim v2))

/-- `parse_status` from httparse.rs.  The line is split on space bytes; the
first token must carry at least 4 bytes (`&x[0..4]` panics otherwise, modelled
as `none`) and equal `HTTP` there, the version is `&x[5..]` (panicking when the
token is shorter than 5 bytes), the code token needs three in-range digits and
the reason is simply the third token. -/
def parse_status (input : List Nat) :
    Option (Except ParseError (Nat × List Nat × List Nat)) :=
  let segs := splitOnByte 32 input
  let x := segs.headI
  if x.length < 4 then none
  else if x.take 4 ≠ bytes "HTTP" then
    some (.error (.WrongStatusHeader (input.take 4)))
  else if x.length < 5 then none
  else
    let version := x.drop 5
    match segs[1]? with
    | none => some (.error (.WrongStatusCode []))
    | some code =>
      if code.length < 3 then some (.error (.WrongStatusCode code))
      else
        let a : Int := (code.getD 0 0 : Int) - 48
        let b : Int := (code.getD 1 0 : Int) - 48
        let c : Int := (code.getD 2 0 : Int) - 48
        if a < 1 ∨ 5 < a ∨ b < 0 ∨ 9 < b ∨ c < 0 ∨ 9 < c then
          some (.error (.WrongStatusCode code))
        else
          match segs[2]? with
          | none => some (.error .WrongStatusReason)
          | some reason => some (.ok ((a * 100 + b * 10 + c).toNat, version, reason))

/-- Position of the first `\r\n` window, as `windows(2).position` computes. -/
def findCRLF : List Nat → Option Nat
  | a :: b :: rest =>
    if a = 13 ∧ b = 10 then some 0 else (findCRLF (b :: rest)).map (· + 1)
  | _ => none

/-- The loop body of the `parse_headers` iterator: cut the next `\r\n`-ended
line; the first line goes to `parse_status` (errors are yielded and iteration
continues), later nonempty lines go to `parse_header`, an empty line ends the
block.  The whole yielded sequence is collected; `none` models a panic in any
step. -/
def parse_headersAux (input : List Nat) (statusParsed : Bool) :
    Option (List (Except ParseError Header)) :=
  match h : findCRLF input with
  | none => some []
  | some idx =>
    let line := input.take idx
    let rest := input.drop (idx + 2)
    if statusParsed = false then
      match parse_status line with
      | none => none
      | some r =>
        match parse_headersAux rest true with
        | none => none
        | some items => some ((r.map fun t => Header.status t.1 t.2.1 t.2.2) :: items)
    else if line ≠ [] then
      match parse_header line with
      | none => none
      | some r =>
        match parse_headersAux rest true with
        | none => none
        | some items => some ((r.map fun p => Header.header p.1 p.2) :: items)
    else some []
termination_by input.length
decreasing_by
  all_goals
    simp only [List.length_drop]
    cases input with
    | nil => simp [findCRLF] at h
    | cons a l => simp; omega

/-- `parse_headers` from httparse.rs: the full item sequence the iterator
yields on a buffer. -/
def parse_headers (input : List Nat) : Option (List (Except ParseError Header)) :=
  parse_headersAux input false

/-! ## body.rs -/

/-- The state of `Body` from body.rs that `poll_next` reads and writes; the
reader and the scratch buffer are modelled by feeding each `poll_read`
outcome in explicitly. -/
structure BodyState where
  drained : Bool
  rest : Option (List Nat)
  counter : Nat
  content_length : Option Nat
deriving Repr, DecidableEq

/-- One outcome of `poll_read` on the underlying reader: the bytes placed
into the 4096-byte scratch buffer (empty on EOF), an I/O error, or pending. -/
inductive ReadResult where
  | pending : ReadResult
  | ok : List Nat → ReadResult
  | ioError : ReadResult
deriving Repr, DecidableEq

/-- What one `poll_next` call produces. -/
inductive BodyPoll where
  | pending : BodyPoll
  | chunk : List Nat → BodyPoll
  | endStream : BodyPoll
  | ioError : BodyPoll
  | panic : BodyPoll
deriving Repr, DecidableEq

/-- `Body::poll_next` from body.rs.  On a successful read of `n` bytes the
counter grows by `n`; when a `content_length` bound is set and the counter
exceeds it the code runs `n -= self.counter - max` on a `usize`: when the
overshoot is larger than `n` this subtraction underflows and the call
panics (modelled as `BodyPoll.panic`); otherwise the possibly truncated
first `n` buffer bytes are yielded, or the stream ends when the truncated
`n` is zero. -/
def Body.poll_next (s : BodyState) (r : ReadResult) : BodyPoll × BodyState :=
  if s.drained then (.endStream, s)
  else
    match s.rest with
    | some vec => (.chunk vec, { s with rest := none })
    | none =>
      match r with
      | .pending => (.pending, s)
      | .ioError => (.ioError, { s with drained := true })
      | .ok data =>
        let n := data.length
        let counter := s.counter + n
        let s2 := { s with counter := counter }
        match s.content_length with
        | some max =>
          if max < counter then
            if n < counter - max then (.panic, s2)
            else
              let n2 := n - (counter - max)
              if 0 < n2 then (.chunk (data.take n2), s2) else (.endStream, s2)
          else if 0 < n then (.chunk data, s2) else (.endStream, s2)
        | none => if 0 < n then (.chunk data, s2) else (.endStream, s2)

/-- Drive `poll_next` over a sequence of read outcomes, collecting what each
call produced. -/
def Body.run (s : BodyState) : List ReadResult → List BodyPoll
  | [] => []
  | r :: rs =>
    let p := Body.poll_next s r
    p.1 :: Body.run p.2 rs

/-! ## connect.rs and the external `http::uri` interface

The `Uri`, `Scheme` and `Authority` types come from the external `http`
crate, which the spec treats as an opaque collaborator holding validated
domain values.  They are modelled here with just enough structure for
`Destination`: a URI is its optional scheme, authority (userinfo, host,
optional port) and path-and-query, all as byte lists; parsing validates
the character classes the operations rely on.  IPv6 bracket syntax is not
modelled. -/

structure Authority where
  userinfo : Option (List Nat)
  host : List Nat
  port : Option Nat
deriving Repr, DecidableEq

structure Uri where
  scheme : Option (List Nat)
  authority : Option Authority
  path_and_query : Option (List Nat)
deriving Repr, DecidableEq

def isAlpha (b : Nat) : Bool := (65 ≤ b && b ≤ 90) || (97 ≤ b && b ≤ 122)

def isDigitByte (b : Nat) : Bool := 48 ≤ b && b ≤ 57

def isSchemeChar (b : Nat) : Bool := isAlpha b || isDigitByte b || b = 43 || b = 45 || b = 46

/-- Model of `Scheme` parsing: nonempty, leading letter, scheme characters. -/
def parseScheme (s : List Nat) : Option (List Nat) :=
  match s with
  | [] => none
  | b :: rest => if isAlpha b && rest.all isSchemeChar then some (b :: rest) else none

def isHostChar (b : Nat) : Bool := isAlpha b || isDigitByte b || b = 45 || b = 46 || b = 95

def validHost (h : List Nat) : Bool := !h.isEmpty && h.all isHostChar

/-- Split a byte list at the last occurrence of `sep`; `none` when `sep`
does not occur. -/
def splitAtLast (sep : Nat) : List Nat → Option (List Nat × List Nat)
  | [] => none
  | x :: xs =>
    match splitAtLast sep xs with
    | some (pre, post) => some (x :: pre, post)
    | none => if x = sep then some ([], xs) else none

def digitsVal (l : List Nat) : Nat := l.foldl (fun a d => a * 10 + (d - 48)) 0

/-- Decimal printing of a port number, as `format!` writes it. -/
def portPrint (n : Nat) : List Nat :=
  if n < 10 then [n + 48] else portPrint (n / 10) ++ [n % 10 + 48]
termination_by n
decreasing_by exact Nat.div_lt_self (by omega) (by omega)

def parsePort (l : List Nat) : Option Nat :=
  if !l.isEmpty && l.all isDigitByte && digitsVal l < 65536 then some (digitsVal l) else none

/-- Model of `Authority` parsing: optional userinfo before the last `@`,
then the host, then an optional `:` decimal port. -/
def parseAuthority (s : List Nat) : Option Authority :=
  let pieces :=
    match splitAtLast 64 s with
    | some (u, rest) => (some u, rest)
    | none => (none, s)
  match splitAtLast 58 pieces.2 with
  | some (hst, prt) =>
    match parsePort prt with
    | some p => if validHost hst then some ⟨pieces.1, hst, some p⟩ else none
    | none => none
  | none => if validHost pieces.2 then some ⟨pieces.1, pieces.2, none⟩ else none

/-- Model of `Uri::from_parts` composition rules: a scheme requires an
authority; an authority together with a path requires a scheme. -/
def Uri.from_parts (p : Uri) : Option Uri :=
  if p.scheme.isSome then
    if p.authority.isNone then none else some p
  else if p.authority.isSome && p.path_and_query.isSome then none
  else some p

/-- `Error` from connect.rs. -/
inductive ConnectError where
  | Parse : ConnectError
deriving Repr, DecidableEq

/-- `Destination` from connect.rs. -/
structure Destination where
  uri : Uri
deriving Repr, DecidableEq

/-- `Destination::scheme`. -/
def Destination.scheme (d : Destination) : List Nat := d.uri.scheme.getD []

/-- `Destination::host`. -/
def Destination.host (d : Destination) : List Nat :=
  (d.uri.authority.map Authority.host).getD []

/-- `Destination::port`. -/
def Destination.port (d : Destination) : Option Nat :=
  d.uri.authority.bind Authority.port

/-- `Destination::update_uri`: mutate a clone of the parts; on recomposition
failure restore the saved URI and report `Parse`. -/
def Destination.update_uri (d : Destination) (f : Uri → Uri) :
    Except ConnectError Unit × Destination :=
  let old := d.uri
  let parts := f old
  match Uri.from_parts parts with
  | some uri => (.ok (), ⟨uri⟩)
  | none => (.error .Parse, ⟨old⟩)

/-- `Destination::set_scheme`. -/
def Destination.set_scheme (d : Destination) (s : List Nat) :
    Except ConnectError Unit × Destination :=
  match parseScheme s with
  | none => (.error .Parse, d)
  | some sc => d.update_uri fun p => { p with scheme := some sc }

/-- `Destination::set_host`: reject `@`, then build the new authority from
`host:existing-port` when the destination has a port, otherwise parse the
host alone and reject it when it carries its own port. -/
def Destination.set_host (d : Destination) (host : List Nat) :
    Except ConnectError Unit × Destination :=
  if host.contains 64 then (.error .Parse, d)
  else
    match d.port with
    | some port =>
      match parseAuthority (host ++ 58 :: portPrint port) with
      | none => (.error .Parse, d)
      | some auth => d.update_uri fun p => { p with authority := some auth }
    | none =>
      match parseAuthority host with
      | none => (.error .Parse, d)
      | some auth =>
        if auth.port.isSome then (.error .Parse, d)
        else d.update_uri fun p => { p with authority := some auth }

/-- `Destination::set_port_opt`: every failure path runs through an
`expect`, so a parse or recomposition failure panics (modelled `none`)
rather than returning an error. -/
def Destination.set_port_opt (d : Destination) (port : Option Nat) :
    Option Destination :=
  let authOpt :=
    match port with
    | some p => parseAuthority (d.host ++ 58 :: portPrint p)
    | none => parseAuthority d.host
  match authOpt with
  | none => none
  | some auth =>
    match d.update_uri fun parts => { parts with authority := some auth } with
    | (.ok _, d2) => some d2
    | (.error _, _) => none

/-! ## lib.rs: request serialization and the header receive loop -/

def toLowerByte (b : Nat) : Nat := if 65 ≤ b && b ≤ 90 then b + 32 else b

/-- ASCII model of `str::to_lowercase`. -/
def toLower (l : List Nat) : List Nat := l.map toLowerByte

/-- `Client::build_req` from lib.rs: request line, forced `Host` and
`Connection: close`, then the caller headers, skipping any named `host`
case-insensitively.  `none` models the `url.host().unwrap()` panic when the
URI has no authority. -/
def build_req (method : List Nat) (url : Uri)
    (headers : List (List Nat × List Nat)) : Option (List Nat) :=
  let req := url.path_and_query.getD (bytes "/")
  match url.authority with
  | none => none
  | some auth =>
    let header := method ++ bytes " " ++ req ++ bytes " HTTP/1.0\r\n"
      ++ bytes "Host: " ++ auth.host ++ bytes "\r\n"
      ++ bytes "Connection: close\r\n"
    let header := headers.foldl
      (fun acc nv =>
        if toLower nv.1 = bytes "host" then acc
        else acc ++ nv.1 ++ bytes ": " ++ nv.2 ++ bytes "\r\n")
      header
    some (header ++ bytes "\r\n")

/-- First position of the `\r\n\r\n` terminator, as
`windows(4).position(|s| s == b"\r\n\r\n")` computes. -/
def findTerminator (l : List Nat) : Option Nat :=
  (List.range l.length).find? fun i => (l.drop i).take 4 = [13, 10, 13, 10]

/-- The response-header receive loop of `Client::request` in lib.rs.  The
transport will deliver the bytes of `incoming` in order; poll `i` reads up
to `sched i` of them, bounded by the free space of the fixed 4096-byte
buffer and by the bytes still available.  A zero-length read fails with
`Broken headers`; once the accumulated prefix contains `\r\n\r\n` the head
(through the terminator) and the overrun bytes are returned. -/
def recv_headers (incoming : List Nat) (sched : Nat → Nat) (i left : Nat) :
    Except String (List Nat × List Nat) :=
  let space := 4096 - left
  let len := min (min (sched i) space) (incoming.length - left)
  if h : len = 0 then .error "Broken headers"
  else
    let left2 := left + len
    match findTerminator (incoming.take left2) with
    | some idx =>
      .ok ((incoming.take left2).take (idx + 4), (incoming.take left2).drop (idx + 4))
    | none => recv_headers incoming sched (i + 1) left2
termination_by 4096 - left
decreasing_by
  have h1 : len ≤ 4096 - left := le_trans (min_le_left _ _) (min_le_right _ _)
  omega

/-! ## proxy/tunnel.rs -/

/-- The two tunnel protocol states: the unwritten tail of the CONNECT
request, or the accumulated response bytes. -/
inductive TunnelState where
  | writing : List Nat → TunnelState
  | reading : List Nat → TunnelState
deriving Repr, DecidableEq

/-- Outcome of driving `Tunnel::poll`: success hands back the stored
transport with the proxied marker; `pending` is reached when the supplied
io events run out. -/
inductive TunnelOutcome (S : Type) where
  | ok : S → Bool → TunnelOutcome S
  | err : String → TunnelOutcome S
  | pending : TunnelState → TunnelOutcome S
deriving Repr, DecidableEq

/-- The Reading arm of `Tunnel::poll` from proxy/tunnel.rs, driven by the
successive `read_buf` results.  A zero-length read is an EOF error; once
more than 12 bytes are buffered a non-200 prefix fails immediately, a 200
prefix completes when the buffer ends with `\r\n\r\n` and keeps reading
otherwise. -/
def tunnelReading {S : Type} (stream : S) (buf : List Nat) :
    List (List Nat) → TunnelOutcome S
  | [] => .pending (.reading buf)
  | data :: rest =>
    if data.length = 0 then .err "unexpected EOF while tunnel reading"
    else
      let buf2 := buf ++ data
      if 12 < buf2.length then
        if buf2.take 12 = bytes "HTTP/1.1 200" ∨ buf2.take 12 = bytes "HTTP/1.0 200" then
          if (bytes "\r\n\r\n").isSuffixOf buf2 then .ok stream true
          else tunnelReading stream buf2 rest
        else .err "unsuccessful tunnel"
      else tunnelReading stream buf2 rest

/-- The Writing arm of `Tunnel::poll`: each `write_buf` result consumes
bytes of the cursor; once nothing remains the buffer is truncated and the
state moves to Reading, and a zero-length write with bytes remaining is an
EOF error. -/
def tunnelWriting {S : Type} (stream : S) (remaining : List Nat)
    (writes : List Nat) (reads : List (List Nat)) : TunnelOutcome S :=
  match writes with
  | [] => .pending (.writing remaining)
  | n :: ns =>
    let rem2 := remaining.drop n
    if rem2.isEmpty then tunnelReading stream [] reads
    else if n = 0 then .err "unexpected EOF while tunnel writing"
    else tunnelWriting stream rem2 ns reads

/-! ## http/ares.rs: the caching resolver -/

/-- Addresses are opaque values. -/
abbrev IpAddr := Nat

/-- `ResolverCache` from http/ares.rs: hostname-keyed entries of addresses
with the `Instant` (modelled as `Nat`) recorded at insertion.  Newest
insertion shadows older entries, as `HashMap::insert` replaces. -/
structure ResolverCache where
  cache : List (String × (List IpAddr × Nat))
deriving Repr, DecidableEq

/-- `ResolverCache::lookup`, including the code's exact comparison of the
recorded instant against the current time. -/
def ResolverCache.lookup (c : ResolverCache) (now : Nat) (name : String) :
    Option (List IpAddr) :=
  match c.cache.lookup name with
  | none => none
  | some (vec, ttl) => if ttl < now then some vec else none

/-- `ResolverCache::add`: insert the addresses stamped with the current
time. -/
def ResolverCache.add (c : ResolverCache) (now : Nat) (name : String)
    (addrs : List IpAddr) : ResolverCache :=
  ⟨(name, (addrs, now)) :: c.cache⟩

/-- `CAresResolverFuture` from http/ares.rs: a live query (carrying the
queried hostname), an already-resolved cached answer, or the spent state. -/
inductive CAresResolverFuture where
  | FromResolver : String → String → CAresResolverFuture
  | FromCache : List IpAddr → CAresResolverFuture
  | Done : CAresResolverFuture
deriving Repr, DecidableEq

/-- One poll outcome of the underlying c-ares query. -/
inductive UnderlyingPoll where
  | pending : UnderlyingPoll
  | ready : List IpAddr → UnderlyingPoll
  | failed : UnderlyingPoll
deriving Repr, DecidableEq

inductive ResolvePoll where
  | notReady : ResolvePoll
  | ready : List IpAddr → ResolvePoll
  | ioError : ResolvePoll
  | panicked : ResolvePoll
deriving Repr, DecidableEq

/-- `CAresResolverFuture::poll`: a live query that completes adds its
result to the cache (stamped with the current time) before yielding it;
a cached answer resolves immediately; the spent state panics. -/
def CAresResolverFuture.poll (fut : CAresResolverFuture) (cache : ResolverCache)
    (now : Nat) (underlying : UnderlyingPoll) :
    ResolvePoll × CAresResolverFuture × ResolverCache :=
  match fut with
  | .FromResolver q name =>
    match underlying with
    | .ready vals => (.ready vals, .Done, cache.add now name vals)
    | .failed => (.ioError, .Done, cache)
    | .pending => (.notReady, .FromResolver q name, cache)
  | .FromCache vec => (.ready vec, .Done, cache)
  | .Done => (.panicked, .Done, cache)

/-- `CAresResolverImpl::resolve`: synchronous cache lookup first; a hit
becomes an already-resolved future, a miss issues the underlying `query_a`
for the name. -/
def CAresResolverImpl.resolve (cache : ResolverCache) (now : Nat)
    (name : String) : CAresResolverFuture :=
  match cache.lookup now name with
  | some values => .FromCache values
  | none => .FromResolver name name

/-! ## http/mod.rs: ConnectingTcp and ConnectingTcpRemote

Connection attempts are driven by a script (`World`): each address carries
the number of polls its `ConnectFuture` stays pending and whether it then
connects or fails.  `dns::IpAddrs` (whose source file is not present) is
modelled from the spec as the ordered remaining address list of a batch. -/

/-- Per-address connection script. -/
structure ConnScript where
  pending : Nat
  ok : Bool
deriving Repr, DecidableEq

abbrev World := Nat → ConnScript

/-- An in-flight `ConnectFuture`: its address and remaining pending polls. -/
structure Attempt where
  addr : Nat
  remaining : Nat
deriving Repr, DecidableEq

def mkAttempt (w : World) (a : Nat) : Attempt := ⟨a, (w a).pending⟩

inductive AttemptRes where
  | connected : AttemptRes
  | waiting : Attempt → AttemptRes
  | refused : AttemptRes
deriving Repr, DecidableEq

/-- Poll one `ConnectFuture` under the script. -/
def pollAttempt (w : World) (att : Attempt) : AttemptRes :=
  if att.remaining = 0 then
    if (w att.addr).ok then .connected else .refused
  else .waiting ⟨att.addr, att.remaining - 1⟩

/-- `ConnectingTcpRemote` from http/mod.rs: the remaining address batch and
the current in-flight attempt. -/
structure ConnectingTcpRemote where
  addrs : List Nat
  current : Option Attempt
deriving Repr, DecidableEq

inductive RemotePoll where
  | ready : Nat → RemotePoll
  | notReady : RemotePoll
  | failed : RemotePoll
  | panicked : RemotePoll
deriving Repr, DecidableEq

/-- The inner loop of `ConnectingTcpRemote::poll` once an attempt is in
flight (so an error has been or will be recorded before exhaustion): poll
it; on failure record the error and advance to a fresh attempt on the next
address; when the batch is exhausted return the recorded error. -/
def remoteGo (w : World) : Attempt → List Nat → RemotePoll × ConnectingTcpRemote
  | att, [] =>
    match pollAttempt w att with
    | .connected => (.ready att.addr, ⟨[], some att⟩)
    | .waiting att2 => (.notReady, ⟨[], some att2⟩)
    | .refused => (.failed, ⟨[], some att⟩)
  | att, a :: rest =>
    match pollAttempt w att with
    | .connected => (.ready att.addr, ⟨a :: rest, some att⟩)
    | .waiting att2 => (.notReady, ⟨a :: rest, some att2⟩)
    | .refused => remoteGo w (mkAttempt w a) rest

/-- The loop of `ConnectingTcpRemote::poll`: with no attempt in flight,
start one on the next address (or reach
`err.take().expect("missing connect error")` with no recorded error — a
panic — when the batch is empty), then drive `remoteGo`. -/
def remotePollAux (w : World) (cur : Option Attempt) (hasErr : Bool)
    (addrs : List Nat) : RemotePoll × ConnectingTcpRemote :=
  match cur with
  | some att => remoteGo w att addrs
  | none =>
    match addrs with
    | a :: rest => remoteGo w (mkAttempt w a) rest
    | [] =>
      if hasErr then (.failed, ⟨[], none⟩) else (.panicked, ⟨[], none⟩)

/-- `ConnectingTcpRemote::poll`. -/
def ConnectingTcpRemote.poll (w : World) (r : ConnectingTcpRemote) :
    RemotePoll × ConnectingTcpRemote :=
  remotePollAux w r.current false r.addrs

/-- The armed fallback of a `ConnectingTcp`: the delay timer (remaining
polls before it fires) and the fallback batch. -/
structure ConnectingTcpFallback where
  delay : Nat
  remote : ConnectingTcpRemote
deriving Repr, DecidableEq

structure ConnectingTcp where
  preferred : ConnectingTcpRemote
  fallback : Option ConnectingTcpFallback
deriving Repr, DecidableEq

/-- `ConnectingTcp::poll` from http/mod.rs: with no fallback just drive the
preferred batch; otherwise take the fallback out, and race it after the
delay fires, promoting whichever side completes first. -/
def ConnectingTcp.poll (w : World) (s : ConnectingTcp) :
    RemotePoll × ConnectingTcp :=
  match s.fallback with
  | none =>
    let rp := ConnectingTcpRemote.poll w s.preferred
    (rp.1, ⟨rp.2, none⟩)
  | some fb =>
    let rp := ConnectingTcpRemote.poll w s.preferred
    match rp.1 with
    | .ready st => (.ready st, ⟨rp.2, none⟩)
    | .notReady =>
      if fb.delay = 0 then
        let rf := ConnectingTcpRemote.poll w fb.remote
        match rf.1 with
        | .ready st => (.ready st, ⟨rf.2, none⟩)
        | .notReady => (.notReady, ⟨rp.2, some ⟨0, rf.2⟩⟩)
        | .failed => (.notReady, ⟨rp.2, none⟩)
        | .panicked => (.panicked, ⟨rp.2, none⟩)
      else (.notReady, ⟨rp.2, some ⟨fb.delay - 1, fb.remote⟩⟩)
    | .failed =>
      let rf := ConnectingTcpRemote.poll w fb.remote
      (rf.1, ⟨rf.2, none⟩)
    | .panicked => (.panicked, ⟨rp.2, some fb⟩)

/-- Poll a `ConnectingTcp` repeatedly (up to `n` times), as the scheduler
would, returning the first non-pending result. -/
def ConnectingTcp.run (w : World) (s : ConnectingTcp) : Nat → RemotePoll
  | 0 => .notReady
  | n + 1 =>
    match ConnectingTcp.poll w s with
    | (.notReady, s2) => ConnectingTcp.run w s2 n
    | (r, _) => r

/-- `ConnectingTcp::new` in the configuration of interest: a fallback
timeout configured and a nonempty fallback batch, so the delay timer is
armed. -/
def ConnectingTcp.init (preferredAddrs fallbackAddrs : List Nat)
    (delay : Nat) : ConnectingTcp :=
  ⟨⟨preferredAddrs, none⟩, some ⟨delay, ⟨fallbackAddrs, none⟩⟩⟩


/-- Measure of a racing remote: pending polls left on the current attempt
plus the full cost of the untried addresses. -/
def remoteM (w : World) (r : ConnectingTcpRemote) : Nat :=
  (match r.current with
   | none => 0
   | some att => att.remaining + 1)
  + (r.addrs.map fun a => (w a).pending + 1).sum

/-- A remote whose every address (tried or untried) is scripted to fail,
and that still has something to poll. -/
def FailRemote (w : World) (r : ConnectingTcpRemote) : Prop :=
  (∀ a ∈ r.addrs, (w a).ok = false) ∧
  (∀ att, r.current = some att → (w att.addr).ok = false) ∧
  (r.current = none → r.addrs ≠ [])

/-- An address list that fails up to its first succeeding address `good`. -/
def GoodList (w : World) (good : Nat) (l : List Nat) : Prop :=
  ∃ pre post, l = pre ++ good :: post ∧ (∀ a ∈ pre, (w a).ok = false) ∧
    (w good).ok = true

/-- A remote that will reach the succeeding address `good`. -/
def GoodRemote (w : World) (good : Nat) (r : ConnectingTcpRemote) : Prop :=
  match r.current with
  | none => GoodList w good r.addrs
  | some att => (att.addr = good ∧ (w good).ok = true) ∨
      ((w att.addr).ok = false ∧ GoodList w good r.addrs)

/-- Invariant of the C5 scenario while polling a `ConnectingTcp`. -/
def CtpInv (w : World) (good : Nat) (s : ConnectingTcp) : Prop :=
  match s.fallback with
  | none => GoodRemote w good s.preferred
  | some fb => FailRemote w s.preferred ∧ GoodRemote w good fb.remote

/-- Measure of a whole `ConnectingTcp` state. -/
def ctpM (w : World) (s : ConnectingTcp) : Nat :=
  remoteM w s.preferred
  + (match s.fallback with
     | none => 0
     | some fb => fb.delay + remoteM w fb.remote + 1)

/-! # Theorems -/

/-- C2: for a Body with `content_length = 5`, underlying reads delivering 7
bytes and then EOF make `poll_next` yield exactly the first 5 bytes — but
the following poll hits the `n -= self.counter - max` usize underflow and
panics instead of ending the stream cleanly, refuting the clean-termination
part of the claim while confirming that exactly `L` bytes were yielded. -/
theorem body_overrun_then_poll_panics :
    Body.run ⟨false, none, 0, some 5⟩ [.ok [1, 2, 3, 4, 5, 6, 7], .ok []]
      = [.chunk [1, 2, 3, 4, 5], .panic] := rfl

/-- C9: polling a `ConnectingTcpRemote` whose address batch is empty (and
with no attempt in flight) reaches `err.take().expect("missing connect
error")` with no recorded error and panics, for every connection script. -/
theorem remote_poll_empty_batch_panics (w : World) :
    (ConnectingTcpRemote.poll w ⟨[], none⟩).1 = RemotePoll.panicked := by
  simp [ConnectingTcpRemote.poll, remotePollAux]

/-- C8: the caching resolver consults the cache synchronously — a hit
returns an already-resolved `FromCache` future that yields the cached
addresses on its first poll whatever the underlying resolver would do,
while a miss issues the query for the name and, when the query completes,
records the addresses under the hostname stamped with the current time
before yielding them. -/
theorem resolve_cache_contract (cache : ResolverCache) (now now2 : Nat)
    (name : String) (vs addrs : List IpAddr) (u : UnderlyingPoll) :
    (cache.lookup now name = some vs →
      CAresResolverImpl.resolve cache now name = .FromCache vs ∧
      CAresResolverFuture.poll (.FromCache vs) cache now2 u
        = (.ready vs, .Done, cache)) ∧
    (cache.lookup now name = none →
      CAresResolverImpl.resolve cache now name = .FromResolver name name ∧
      CAresResolverFuture.poll (.FromResolver name name) cache now2 (.ready addrs)
        = (.ready addrs, .Done, cache.add now2 name addrs) ∧
      (cache.add now2 name addrs).cache.lookup name = some (addrs, now2)) := by
  constructor
  · intro h
    refine ⟨?_, rfl⟩
    simp [CAresResolverImpl.resolve, h]
  · intro h
    refine ⟨?_, rfl, ?_⟩
    · simp [CAresResolverImpl.resolve, h]
    · simp [ResolverCache.add, List.lookup]

/-- Closed witness for the C8 contract at a concrete cache: a lookup hit at
time 10 on an entry recorded at time 5, and a lookup miss for an absent
name followed by a completed query. -/
theorem resolve_cache_contract_witness :
    (ResolverCache.lookup ⟨[("h", ([7, 8], 5))]⟩ 10 "h" = some [7, 8] ∧
      CAresResolverImpl.resolve ⟨[("h", ([7, 8], 5))]⟩ 10 "h" = .FromCache [7, 8]) ∧
    (ResolverCache.lookup ⟨[("h", ([7, 8], 5))]⟩ 10 "x" = none ∧
      CAresResolverImpl.resolve ⟨[("h", ([7, 8], 5))]⟩ 10 "x" = .FromResolver "x" "x" ∧
      CAresResolverFuture.poll (.FromResolver "x" "x") ⟨[("h", ([7, 8], 5))]⟩ 11 (.ready [9])
        = (.ready [9], .Done, ResolverCache.add ⟨[("h", ([7, 8], 5))]⟩ 11 "x" [9])) := by
  have h1 := (resolve_cache_contract ⟨[("h", ([7, 8], 5))]⟩ 10 11 "h" [7, 8] [9] .pending).1
    (by simp [ResolverCache.lookup, List.lookup])
  have h2 := (resolve_cache_contract ⟨[("h", ([7, 8], 5))]⟩ 10 11 "x" [7, 8] [9] .pending).2
    (by simp [ResolverCache.lookup, List.lookup])
  exact ⟨⟨by simp [ResolverCache.lookup, List.lookup], h1.1⟩, by simp [ResolverCache.lookup, List.lookup], h2.1, h2.2.1⟩

/-- The header-serializing fold of `build_req`, reshaped: the skipped
entries are a filter and the rest concatenates in order. -/
theorem build_req_fold_eq (hs : List (List Nat × List Nat)) (acc : List Nat) :
    hs.foldl
        (fun acc nv =>
          if toLower nv.1 = bytes "host" then acc
          else acc ++ nv.1 ++ bytes ": " ++ nv.2 ++ bytes "\r\n")
        acc
      = acc ++ ((hs.filter fun nv => !(toLower nv.1 = bytes "host")).map
          fun nv => nv.1 ++ bytes ": " ++ nv.2 ++ bytes "\r\n").flatten := by
  induction hs generalizing acc with
  | nil => simp
  | cons nv rest ih =>
    by_cases h : toLower nv.1 = bytes "host"
    · rw [List.foldl_cons, if_pos h, ih]
      simp [h]
    · rw [List.foldl_cons, if_neg h, ih]
      simp [h, List.append_assoc]

/-- C7: for every request whose URI has an authority, the serialized header
block is exactly the request line (path+query defaulting to `/`, protocol
forced to HTTP/1.0), a Host header from the URI authority, `Connection:
close`, then the caller headers in order minus any named `host`
case-insensitively, terminated by an empty line. -/
theorem build_req_wire_format (method : List Nat) (url : Uri) (auth : Authority)
    (headers : List (List Nat × List Nat)) (ha : url.authority = some auth) :
    build_req method url headers
      = some (method ++ bytes " " ++ url.path_and_query.getD (bytes "/")
          ++ bytes " HTTP/1.0\r\n"
          ++ bytes "Host: " ++ auth.host ++ bytes "\r\n"
          ++ bytes "Connection: close\r\n"
          ++ ((headers.filter fun nv => !(toLower nv.1 = bytes "host")).map
              fun nv => nv.1 ++ bytes ": " ++ nv.2 ++ bytes "\r\n").flatten
          ++ bytes "\r\n") := by
  simp only [build_req, ha, build_req_fold_eq]

/-- Closed witness for the C7 wire format: a GET with one dropped `HOST`
header and one kept header. -/
theorem build_req_wire_format_witness :
    build_req (bytes "GET") ⟨some (bytes "http"), some ⟨none, bytes "a.b", none⟩,
        some (bytes "/x?q=1")⟩ [(bytes "HOST", bytes "z"), (bytes "K", bytes "v")]
      = some (bytes "GET" ++ bytes " " ++ bytes "/x?q=1" ++ bytes " HTTP/1.0\r\n"
          ++ bytes "Host: " ++ bytes "a.b" ++ bytes "\r\n"
          ++ bytes "Connection: close\r\n"
          ++ ([(bytes "K") ++ bytes ": " ++ bytes "v" ++ bytes "\r\n"]).flatten
          ++ bytes "\r\n") := by
  have h := build_req_wire_format (bytes "GET")
    ⟨some (bytes "http"), some ⟨none, bytes "a.b", none⟩, some (bytes "/x?q=1")⟩
    ⟨none, bytes "a.b", none⟩
    [(bytes "HOST", bytes "z"), (bytes "K", bytes "v")] rfl
  rw [h]
  simp [bytes, toLower, toLowerByte]

/-- One Reading step of `Tunnel::poll`, unfolded. -/
theorem tunnelReading_cons {S : Type} (stream : S) (buf c : List Nat)
    (rest : List (List Nat)) :
    tunnelReading stream buf (c :: rest)
      = if c.length = 0 then .err "unexpected EOF while tunnel reading"
        else if 12 < (buf ++ c).length then
          if (buf ++ c).take 12 = bytes "HTTP/1.1 200" ∨
              (buf ++ c).take 12 = bytes "HTTP/1.0 200" then
            if (bytes "\r\n\r\n").isSuffixOf (buf ++ c) then .ok stream true
            else tunnelReading stream (buf ++ c) rest
          else .err "unsuccessful tunnel"
        else tunnelReading stream (buf ++ c) rest := rfl

/-- Accumulating more nonempty chunks after a 200-prefixed buffer keeps
reading until the buffer ends with the header terminator, then completes
with the stored transport and the proxied marker. -/
theorem tunnelReading_completes {S : Type} (stream : S) :
    ∀ (chunks : List (List Nat)) (buf : List Nat), chunks ≠ [] →
      (∀ c ∈ chunks, c ≠ []) →
      12 < (buf ++ chunks.flatten).length →
      ((buf ++ chunks.flatten).take 12 = bytes "HTTP/1.1 200" ∨
        (buf ++ chunks.flatten).take 12 = bytes "HTTP/1.0 200") →
      (bytes "\r\n\r\n").isSuffixOf (buf ++ chunks.flatten) →
      tunnelReading stream buf chunks = .ok stream true := by
  intro chunks
  induction chunks with
  | nil => intro buf hne _ _ _ _; exact absurd rfl hne
  | cons c rest ih =>
    intro buf _ hcs hlen hpre hsuf
    have hc : c ≠ [] := hcs c (by simp)
    have hc0 : ¬ c.length = 0 := by simpa [List.length_eq_zero] using hc
    rw [tunnelReading_cons, if_neg hc0]
    cases rest with
    | nil =>
      simp only [List.flatten_cons, List.flatten_nil, List.append_nil] at hlen hpre hsuf
      rw [if_pos hlen, if_pos hpre, if_pos hsuf]
    | cons c2 rest2 =>
      have hassoc : buf ++ (c :: c2 :: rest2).flatten
          = (buf ++ c) ++ (c2 :: rest2).flatten := by
        simp [List.append_assoc]
      rw [hassoc] at hlen hpre hsuf
      have step : tunnelReading stream (buf ++ c) (c2 :: rest2) = .ok stream true :=
        ih (buf ++ c) (by simp) (fun x hx => hcs x (by simp [hx])) hlen hpre hsuf
      by_cases h12 : 12 < (buf ++ c).length
      · rw [if_pos h12]
        have hpre2 : (buf ++ c).take 12
            = ((buf ++ c) ++ (c2 :: rest2).flatten).take 12 :=
          (List.take_append_of_le_length (by omega)).symm
        have hpre3 : (buf ++ c).take 12 = bytes "HTTP/1.1 200" ∨
            (buf ++ c).take 12 = bytes "HTTP/1.0 200" := by
          rw [hpre2]; exact hpre
        rw [if_pos hpre3]
        by_cases hsuf2 : (bytes "\r\n\r\n").isSuffixOf (buf ++ c)
        · rw [if_pos hsuf2]
        · rw [if_neg hsuf2]; exact step
      · rw [if_neg h12]; exact step

/-- C6: the tunnel protocol contract of `Tunnel::poll`.  (1) A zero-length
read in the Reading state is an unexpected-EOF error, (2) as is a
zero-length write in the Writing state while request bytes remain; (3) once
more than 12 bytes are buffered, a prefix other than `HTTP/1.1 200` or
`HTTP/1.0 200` fails immediately with the unsuccessful-tunnel error, and
(4) with a 200 prefix the tunnel keeps reading until the buffer ends with
`\r\n\r\n` and then completes with the original transport and the proxied
marker. -/
theorem tunnel_handshake_contract {S : Type} (stream : S) :
    (∀ buf rest, tunnelReading stream buf ([] :: rest)
        = .err "unexpected EOF while tunnel reading") ∧
    (∀ rem ns reads, rem ≠ [] →
      tunnelWriting stream rem (0 :: ns) reads
        = .err "unexpected EOF while tunnel writing") ∧
    (∀ buf data rest, data ≠ [] → 12 < (buf ++ data).length →
      (buf ++ data).take 12 ≠ bytes "HTTP/1.1 200" →
      (buf ++ data).take 12 ≠ bytes "HTTP/1.0 200" →
      tunnelReading stream buf (data :: rest) = .err "unsuccessful tunnel") ∧
    (∀ chunks buf, chunks ≠ [] → (∀ c ∈ chunks, c ≠ []) →
      12 < (buf ++ chunks.flatten).length →
      ((buf ++ chunks.flatten).take 12 = bytes "HTTP/1.1 200" ∨
        (buf ++ chunks.flatten).take 12 = bytes "HTTP/1.0 200") →
      (bytes "\r\n\r\n").isSuffixOf (buf ++ chunks.flatten) →
      tunnelReading stream buf chunks = .ok stream true) := by
  refine ⟨fun buf rest => by rw [tunnelReading_cons]; norm_num, ?_, ?_, ?_⟩
  · intro rem ns reads hrem
    simp [tunnelWriting, List.isEmpty_iff, hrem]
  · intro buf data rest hdata hlen h1 h2
    have hd0 : ¬ data.length = 0 := by simpa [List.length_eq_zero] using hdata
    rw [tunnelReading_cons, if_neg hd0, if_pos hlen,
      if_neg (fun h => h.elim h1 h2)]
  · intro chunks buf h1 h2 h3 h4 h5
    exact tunnelReading_completes stream chunks buf h1 h2 h3 h4 h5

/-- Closed witness for the C6 contract: the spec scenarios — a CONNECT
response `HTTP/1.1 200 Connection Established\r\n\r\n` split over two reads
completes with the proxied transport, `HTTP/1.1 407 ...` fails with the
tunnel error, and zero-length io fails with EOF errors. -/
theorem tunnel_handshake_contract_witness :
    tunnelReading (0 : Nat) [] [bytes "HTTP/1.1 200 Connection ",
        bytes "Established\r\n\r\n"] = .ok 0 true ∧
    tunnelReading (0 : Nat) []
        [bytes "HTTP/1.1 407 Proxy Authentication Required\r\n\r\n"]
      = .err "unsuccessful tunnel" ∧
    tunnelReading (0 : Nat) (bytes "HTTP/1.1 2") [([] : List Nat)]
      = .err "unexpected EOF while tunnel reading" ∧
    tunnelWriting (0 : Nat) (bytes "CONNECT") [0] []
      = .err "unexpected EOF while tunnel writing" := by
  obtain ⟨w1, w2, w3, w4⟩ := tunnel_handshake_contract (0 : Nat)
  refine ⟨?_, ?_, w1 (bytes "HTTP/1.1 2") [], w2 (bytes "CONNECT") [] [] (by decide)⟩
  · exact w4 [bytes "HTTP/1.1 200 Connection ", bytes "Established\r\n\r\n"] []
      (by decide) (by decide) (by decide) (Or.inl (by decide)) (by decide)
  · exact w3 [] (bytes "HTTP/1.1 407 Proxy Authentication Required\r\n\r\n") []
      (by decide) (by decide) (by decide) (by decide)

/-- `findTerminator` finds nothing exactly when no position carries the
four terminator bytes. -/
theorem findTerminator_none_iff (l : List Nat) :
    findTerminator l = none ↔ ∀ i, (l.drop i).take 4 ≠ [13, 10, 13, 10] := by
  unfold findTerminator
  rw [List.find?_eq_none]
  constructor
  · intro h i
    by_cases hi : i < l.length
    · simpa using h i (List.mem_range.mpr hi)
    · have hd : l.drop i = [] := List.drop_eq_nil_of_le (by omega)
      simp [hd]
  · intro h i _
    simpa using h i

/-- C10 core: when the `\r\n\r\n` terminator does not occur in the first
4096 bytes the transport delivers, the receive loop of `Client::request`
always fails with the `Broken headers` error — the fixed buffer fills (or
the stream ends), the next read is zero-length, and the loop reports the
failure — whatever the read-size schedule does. -/
theorem recv_headers_overflow_broken (incoming : List Nat) (sched : Nat → Nat)
    (hterm : findTerminator (incoming.take 4096) = none) :
    recv_headers incoming sched 0 0 = .error "Broken headers" := by
  suffices h : ∀ fuel i left, left ≤ 4096 → 4096 - left ≤ fuel →
      recv_headers incoming sched i left = .error "Broken headers" by
    exact h 4096 0 0 (by omega) (by omega)
  intro fuel
  induction fuel with
  | zero =>
    intro i left hle hf
    have hl : left = 4096 := by omega
    rw [recv_headers.eq_def]
    simp [hl]
  | succ m ih =>
    intro i left hle hf
    rw [recv_headers.eq_def]
    by_cases hlen : min (min (sched i) (4096 - left)) (incoming.length - left) = 0
    · simp [hlen]
    · simp only [hlen, dite_false, dif_neg hlen]
      have hspace : min (min (sched i) (4096 - left)) (incoming.length - left)
          ≤ 4096 - left := le_trans (min_le_left _ _) (min_le_right _ _)
      set len := min (min (sched i) (4096 - left)) (incoming.length - left) with hdef
      have hnone : findTerminator (incoming.take (left + len)) = none := by
        rw [findTerminator_none_iff]
        intro j hwin
        have hJ : (incoming.take (left + len)).drop j
            = (incoming.drop j).take (left + len - j) := List.drop_take ..
        rw [hJ, List.take_take] at hwin
        have hlenwin := congrArg List.length hwin
        simp [List.length_take] at hlenwin
        have h4 : 4 ≤ left + len - j := by omega
        have hwin4 : (incoming.drop j).take 4 = [13, 10, 13, 10] := by
          rw [min_eq_left (by omega : (4 : Nat) ≤ left + len - j)] at hwin
          exact hwin
        have hbig := (findTerminator_none_iff (incoming.take 4096)).mp hterm j
        apply hbig
        rw [List.drop_take .., List.take_take,
          min_eq_left (by omega : (4 : Nat) ≤ 4096 - j)]
        exact hwin4
      rw [hnone]
      exact ih (i + 1) (left + len) (by omega) (by omega)

/-- Closed witness for C10: a transport that delivers 4100 filler bytes and
only then the terminator never fits the head in the buffer, so the request
fails with `Broken headers`. -/
theorem recv_headers_overflow_broken_witness :
    recv_headers (List.replicate 4100 65 ++ [13, 10, 13, 10]) (fun _ => 1000) 0 0
      = .error "Broken headers" := by
  apply recv_headers_overflow_broken
  rw [findTerminator_none_iff]
  intro i hwin
  have h1 : (List.replicate 4100 (65 : Nat) ++ [13, 10, 13, 10]).take 4096
      = List.replicate 4096 65 := by
    rw [List.take_append_of_le_length (by simp only [List.length_replicate]; omega)]
    have hmin : min 4096 4100 = 4096 := by omega
    rw [List.take_replicate, hmin]
  rw [h1] at hwin
  have hmem : (13 : Nat) ∈ (List.replicate 4096 (65 : Nat)).drop i := by
    have : (13 : Nat) ∈ ((List.replicate 4096 (65 : Nat)).drop i).take 4 := by
      rw [hwin]; simp
    exact List.mem_of_mem_take this
  have := List.eq_of_mem_replicate (List.mem_of_mem_drop hmem)
  omega


/-- Unfolding equation of `findCRLF` on two explicit heads. -/
theorem findCRLF_cons_cons (a b : Nat) (rest : List Nat) :
    findCRLF (a :: b :: rest)
      = if a = 13 ∧ b = 10 then some 0 else (findCRLF (b :: rest)).map (· + 1) := rfl

/-- `findCRLF` finds the first explicit `\r\n` after CR-free bytes. -/
theorem findCRLF_append (line tail : List Nat) (h : 13 ∉ line) :
    findCRLF (line ++ 13 :: 10 :: tail) = some line.length := by
  induction line with
  | nil => simp [findCRLF]
  | cons a l ih =>
    have ha : a ≠ 13 := fun e => h (by simp [e])
    have h2 : 13 ∉ l := fun e => h (by simp [e])
    obtain ⟨c, cs, hcc⟩ : ∃ c cs, l ++ 13 :: 10 :: tail = c :: cs := by
      cases l <;> exact ⟨_, _, rfl⟩
    calc findCRLF ((a :: l) ++ 13 :: 10 :: tail) = findCRLF (a :: c :: cs) := by
          rw [List.cons_append, hcc]
      _ = (findCRLF (c :: cs)).map (· + 1) := by
          rw [findCRLF_cons_cons, if_neg (fun hc => ha hc.1)]
      _ = some (l.length + 1) := by rw [← hcc, ih h2]; rfl
      _ = some ((a :: l).length) := by simp

/-- `rtrim` is the identity on segments with no trailing space. -/
theorem rtrim_no_trail (l : List Nat) (h : l.getLast? ≠ some 32) : rtrim l = some l := by
  unfold rtrim
  rw [if_neg h]

theorem parse_headersAux_nil (sp : Bool) : parse_headersAux [] sp = some [] := by
  rw [parse_headersAux.eq_def]
  simp [findCRLF]

/-- One iteration of the `parse_headers` loop on the status line. -/
theorem parse_headers_single_line (line tail : List Nat) (h13 : 13 ∉ line) :
    parse_headersAux (line ++ 13 :: 10 :: tail) false
      = match parse_status line with
        | none => none
        | some r =>
          match parse_headersAux tail true with
          | none => none
          | some items =>
            some ((r.map fun t => Header.status t.1 t.2.1 t.2.2) :: items) := by
  rw [parse_headersAux.eq_def]
  have e2 : (line ++ 13 :: 10 :: tail).take line.length = line := by
    rw [List.take_append_of_le_length (le_refl line.length), List.take_length]
  rw [findCRLF_append line tail h13]
  have e3 : (line ++ 13 :: 10 :: tail).drop (line.length + 2) = tail := by
    have h4 : line ++ 13 :: 10 :: tail = (line ++ [13, 10]) ++ tail := by simp
    rw [h4]
    have hl : line.length + 2 = (line ++ [13, 10]).length := by simp
    rw [hl, List.drop_left]
  simp only [e2, e3, if_true]

/-- One iteration of the `parse_headers` loop on a later, nonempty line. -/
theorem parse_headersAux_line (line tail : List Nat) (h13 : 13 ∉ line)
    (hne : line ≠ []) :
    parse_headersAux (line ++ 13 :: 10 :: tail) true
      = match parse_header line with
        | none => none
        | some r =>
          match parse_headersAux tail true with
          | none => none
          | some items =>
            some ((r.map fun p => Header.header p.1 p.2) :: items) := by
  rw [parse_headersAux.eq_def]
  have e2 : (line ++ 13 :: 10 :: tail).take line.length = line := by
    rw [List.take_append_of_le_length (le_refl line.length), List.take_length]
  rw [findCRLF_append line tail h13]
  have e3 : (line ++ 13 :: 10 :: tail).drop (line.length + 2) = tail := by
    have h4 : line ++ 13 :: 10 :: tail = (line ++ [13, 10]) ++ tail := by simp
    rw [h4]
    have hl : line.length + 2 = (line ++ [13, 10]).length := by simp
    rw [hl, List.drop_left]
  simp only [e2, e3, hne, if_true, if_false]
  simp [hne]

/-- The empty line ends the header block. -/
theorem parse_headersAux_term (tail : List Nat) :
    parse_headersAux (13 :: 10 :: tail) true = some [] := by
  rw [parse_headersAux.eq_def]
  have h0 : findCRLF (13 :: 10 :: tail) = some 0 := by
    rw [findCRLF_cons_cons, if_pos ⟨rfl, rfl⟩]
  rw [h0]
  simp

/-- `slice::split` when the separator is absent. -/
theorem splitOnByte_not_mem (sep : Nat) (l : List Nat) (h : sep ∉ l) :
    splitOnByte sep l = [l] := by
  induction l with
  | nil => rfl
  | cons b rest ih =>
    have hb : ¬ b = sep := fun e => h (by simp [e])
    have h2 : sep ∉ rest := fun e => h (by simp [e])
    simp only [splitOnByte, if_neg hb, ih h2]

/-- `slice::split` at an explicit separator occurrence. -/
theorem splitOnByte_append (sep : Nat) (l1 l2 : List Nat) (h : sep ∉ l1) :
    splitOnByte sep (l1 ++ sep :: l2) = l1 :: splitOnByte sep l2 := by
  induction l1 with
  | nil => simp [splitOnByte]
  | cons b rest ih =>
    have hb : ¬ b = sep := fun e => h (by simp [e])
    have h2 : sep ∉ rest := fun e => h (by simp [e])
    simp only [List.cons_append, splitOnByte, List.append_eq, if_neg hb, ih h2]

/-- `parse_status` on a well-formed HTTP/1.0 line with in-range code digits
and a third space-token as reason. -/
theorem parse_status_ok (d1 d2 d3 : Nat) (reason : List Nat)
    (h1 : 1 ≤ d1) (h2 : d1 ≤ 5) (h3 : d2 ≤ 9) (h4 : d3 ≤ 9) (hr : 32 ∉ reason) :
    parse_status (bytes "HTTP/1.0" ++ 32 :: ([48 + d1, 48 + d2, 48 + d3] ++ 32 :: reason))
      = some (.ok (100 * d1 + 10 * d2 + d3, bytes "1.0", reason)) := by
  have hsp : splitOnByte 32 (bytes "HTTP/1.0" ++ 32 :: ([48 + d1, 48 + d2, 48 + d3] ++ 32 :: reason))
      = bytes "HTTP/1.0" :: [48 + d1, 48 + d2, 48 + d3] :: [reason] := by
    rw [splitOnByte_append 32 _ _ (by decide),
      splitOnByte_append 32 _ _ (by simp; omega),
      splitOnByte_not_mem 32 reason hr]
  unfold parse_status
  rw [hsp]
  have hd : ¬(((48 + d1 : Nat) : Int) - 48 < 1 ∨ 5 < ((48 + d1 : Nat) : Int) - 48 ∨
      ((48 + d2 : Nat) : Int) - 48 < 0 ∨ 9 < ((48 + d2 : Nat) : Int) - 48 ∨
      ((48 + d3 : Nat) : Int) - 48 < 0 ∨ 9 < ((48 + d3 : Nat) : Int) - 48) := by
    push_cast
    omega
  simp only [List.headI, List.getElem?_cons_zero, List.getElem?_cons_succ]
  norm_num [bytes, hd]
  rw [if_neg (by push_cast; omega)]
  try simp only [Option.some.injEq, Except.ok.injEq, Prod.mk.injEq, and_true, true_and]
  omega

/-- `parse_status` on a line whose code token has an out-of-range digit. -/
theorem parse_status_badcode (c1 c2 c3 : Nat) (reason : List Nat)
    (hne1 : c1 ≠ 32) (hne2 : c2 ≠ 32) (hne3 : c3 ≠ 32) (hr : 32 ∉ reason)
    (hbad : (c1 : Int) - 48 < 1 ∨ 5 < (c1 : Int) - 48 ∨ (c2 : Int) - 48 < 0 ∨
      9 < (c2 : Int) - 48 ∨ (c3 : Int) - 48 < 0 ∨ 9 < (c3 : Int) - 48) :
    parse_status (bytes "HTTP/1.0" ++ 32 :: ([c1, c2, c3] ++ 32 :: reason))
      = some (.error (.WrongStatusCode [c1, c2, c3])) := by
  have hcm : 32 ∉ [c1, c2, c3] := by
    intro hmem
    simp only [List.mem_cons, List.not_mem_nil, or_false] at hmem
    rcases hmem with h | h | h <;> simp_all
  have hsp : splitOnByte 32 (bytes "HTTP/1.0" ++ 32 :: ([c1, c2, c3] ++ 32 :: reason))
      = bytes "HTTP/1.0" :: [c1, c2, c3] :: [reason] := by
    rw [splitOnByte_append 32 _ _ (by decide),
      splitOnByte_append 32 _ _ hcm,
      splitOnByte_not_mem 32 reason hr]
  unfold parse_status
  rw [hsp]
  simp only [List.headI, List.getElem?_cons_zero, List.getElem?_cons_succ]
  norm_num [bytes]
  intro g1 g2 g3 g4 g5 g6
  exfalso
  omega

/-- `parse_status` on a line missing the reason token. -/
theorem parse_status_noreason (d1 d2 d3 : Nat)
    (h1 : 1 ≤ d1) (h2 : d1 ≤ 5) (h3 : d2 ≤ 9) (h4 : d3 ≤ 9) :
    parse_status (bytes "HTTP/1.0" ++ 32 :: [48 + d1, 48 + d2, 48 + d3])
      = some (.error .WrongStatusReason) := by
  have hsp : splitOnByte 32 (bytes "HTTP/1.0" ++ 32 :: [48 + d1, 48 + d2, 48 + d3])
      = bytes "HTTP/1.0" :: [[48 + d1, 48 + d2, 48 + d3]] := by
    rw [splitOnByte_append 32 _ _ (by decide),
      splitOnByte_not_mem 32 _ (by simp; omega)]
  unfold parse_status
  rw [hsp]
  simp only [List.headI, List.getElem?_cons_zero, List.getElem?_cons_succ]
  norm_num [bytes]
  intro hg
  exfalso
  omega

/-- `parse_status` on a line whose first token is at least 4 bytes long but
does not begin with `HTTP`. -/
theorem parse_status_badprefix (t tail : List Nat) (h32 : 32 ∉ t)
    (hlen : 4 ≤ t.length) (hne : t.take 4 ≠ bytes "HTTP") :
    parse_status (t ++ 32 :: tail)
      = some (.error (.WrongStatusHeader (t.take 4))) := by
  have hsp : splitOnByte 32 (t ++ 32 :: tail) = t :: splitOnByte 32 tail :=
    splitOnByte_append 32 t tail h32
  have htk : (t ++ 32 :: tail).take 4 = t.take 4 :=
    List.take_append_of_le_length hlen
  unfold parse_status
  rw [hsp]
  simp only [List.headI]
  rw [if_neg (by omega), if_pos hne, htk]

/-- `parse_header` on a single-colon line with no trailing spaces. -/
theorem parse_header_wf (n v : List Nat) (hn : 58 ∉ n) (hv : 58 ∉ v)
    (hnl : n.getLast? ≠ some 32) (hvl : v.getLast? ≠ some 32) :
    parse_header (n ++ 58 :: v) = some (.ok (ltrim n, ltrim v)) := by
  unfold parse_header
  rw [splitOnByte_append 58 n v hn, splitOnByte_not_mem 58 v hv]
  simp [rtrim_no_trail n hnl, rtrim_no_trail v hvl]

/-- `parse_header` on a line without `:`. -/
theorem parse_header_nocolon (line : List Nat) (h : 58 ∉ line)
    (hl : line.getLast? ≠ some 32) :
    parse_header line = some (.error (.WrongHeader (ltrim line))) := by
  unfold parse_header
  rw [splitOnByte_not_mem 58 line h]
  simp [rtrim_no_trail line hl]

/-- The loop parses each well-formed `name:value` line in order, left-trimming
both sides (the right-trim is the identity here as no segment ends in a
space), until the empty line. -/
theorem header_lines_parse (hdrs : List (List Nat × List Nat))
    (hh : ∀ nv ∈ hdrs, 58 ∉ nv.1 ∧ 58 ∉ nv.2 ∧ 13 ∉ nv.1 ∧ 13 ∉ nv.2 ∧
      nv.1.getLast? ≠ some 32 ∧ nv.2.getLast? ≠ some 32) :
    parse_headersAux
        ((hdrs.map fun nv => nv.1 ++ 58 :: nv.2 ++ [13, 10]).flatten ++ [13, 10]) true
      = some (hdrs.map fun nv => .ok (.header (ltrim nv.1) (ltrim nv.2))) := by
  induction hdrs with
  | nil =>
    simp only [List.map_nil, List.flatten_nil, List.nil_append]
    exact parse_headersAux_term []
  | cons nv rest ih =>
    obtain ⟨h1, h2, h3, h4, h5, h6⟩ := hh nv (by simp)
    have hline13 : 13 ∉ nv.1 ++ 58 :: nv.2 := by
      simp only [List.mem_append, List.mem_cons]
      rintro (h | h | h)
      · exact h3 h
      · omega
      · exact h4 h
    have hre : ((nv :: rest).map fun nv => nv.1 ++ 58 :: nv.2 ++ [13, 10]).flatten ++ [13, 10]
        = (nv.1 ++ 58 :: nv.2) ++ 13 :: 10 ::
            ((rest.map fun nv => nv.1 ++ 58 :: nv.2 ++ [13, 10]).flatten ++ [13, 10]) := by
      simp [List.append_assoc]
    rw [hre, parse_headersAux_line _ _ hline13 (by simp),
      parse_header_wf nv.1 nv.2 h1 h2 h5 h6,
      ih (fun x hx => hh x (by simp [hx]))]
    simp [Except.map]


/-- C3 counterexample: the status line `HTTP/1.0 200 No Content\r\n` is
well-formed with code 200 and reason phrase `No Content`, yet the parser
yields the reason `No` — `parse_status` takes only the next space-delimited
token as the reason, so the claim that the full reason string is recovered
is false. -/
theorem status_reason_truncated :
    parse_headers (bytes "HTTP/1.0 200 No Content\r\n")
      = some [.ok (.status 200 (bytes "1.0") (bytes "No"))] ∧
    bytes "No" ≠ bytes "No Content" := by
  constructor
  · simp [parse_headers, parse_headersAux, parse_status, bytes, findCRLF,
      splitOnByte, Except.map]
  · decide

/-- C3 (amended): for status lines `HTTP/1.0 <code> <reason>\r\n` whose
reason carries no space byte, the parser recovers exactly the code and the
reason; an out-of-range code digit yields `WrongStatusCode`, a missing
reason yields `WrongStatusReason`, and a first token of at least 4 bytes
not beginning with `HTTP` yields `WrongStatusHeader` (first tokens shorter
than 4 bytes instead crash on the `&x[0..4]` slice). -/
theorem status_line_parse_contract :
    (∀ (d1 d2 d3 : Nat) (reason : List Nat), 1 ≤ d1 → d1 ≤ 5 → d2 ≤ 9 → d3 ≤ 9 →
      32 ∉ reason → 13 ∉ reason →
      parse_headers ((bytes "HTTP/1.0" ++ 32 :: ([48 + d1, 48 + d2, 48 + d3] ++ 32 :: reason)) ++ [13, 10])
        = some [.ok (.status (100 * d1 + 10 * d2 + d3) (bytes "1.0") reason)]) ∧
    (∀ (c1 c2 c3 : Nat) (reason : List Nat), c1 ≠ 32 → c2 ≠ 32 → c3 ≠ 32 → c1 ≠ 13 → c2 ≠ 13 → c3 ≠ 13 →
      32 ∉ reason → 13 ∉ reason →
      ((c1 : Int) - 48 < 1 ∨ 5 < (c1 : Int) - 48 ∨ (c2 : Int) - 48 < 0 ∨
        9 < (c2 : Int) - 48 ∨ (c3 : Int) - 48 < 0 ∨ 9 < (c3 : Int) - 48) →
      parse_headers ((bytes "HTTP/1.0" ++ 32 :: ([c1, c2, c3] ++ 32 :: reason)) ++ [13, 10])
        = some [.error (.WrongStatusCode [c1, c2, c3])]) ∧
    (∀ (d1 d2 d3 : Nat), 1 ≤ d1 → d1 ≤ 5 → d2 ≤ 9 → d3 ≤ 9 →
      parse_headers ((bytes "HTTP/1.0" ++ 32 :: [48 + d1, 48 + d2, 48 + d3]) ++ [13, 10])
        = some [.error .WrongStatusReason]) ∧
    (∀ (t tail : List Nat), 32 ∉ t → 13 ∉ t → 13 ∉ tail → 4 ≤ t.length → t.take 4 ≠ bytes "HTTP" →
      parse_headers ((t ++ 32 :: tail) ++ [13, 10])
        = some [.error (.WrongStatusHeader (t.take 4))]) := by
  refine ⟨?_, ?_, ?_, ?_⟩
  · intro d1 d2 d3 reason h1 h2 h3 h4 hr hr13
    have h13 : (13 : Nat) ∉ bytes "HTTP/1.0" ++ 32 :: ([48 + d1, 48 + d2, 48 + d3] ++ 32 :: reason) := by
      intro hm
      rcases List.mem_append.mp hm with h | h
      · exact absurd h (by decide)
      · rcases List.mem_cons.mp h with h | h
        · omega
        · rcases List.mem_append.mp h with h | h
          · simp only [List.mem_cons, List.not_mem_nil, or_false] at h
            rcases h with h | h | h <;> omega
          · rcases List.mem_cons.mp h with h | h
            · omega
            · exact hr13 h
    unfold parse_headers
    rw [parse_headers_single_line _ _ h13,
      parse_status_ok d1 d2 d3 reason h1 h2 h3 h4 hr, parse_headersAux_nil]
    simp [Except.map]
  · intro c1 c2 c3 reason h1 h2 h3 h4 h5 h6 hr hr13 hbad
    have h13 : (13 : Nat) ∉ bytes "HTTP/1.0" ++ 32 :: ([c1, c2, c3] ++ 32 :: reason) := by
      intro hm
      rcases List.mem_append.mp hm with h | h
      · exact absurd h (by decide)
      · rcases List.mem_cons.mp h with h | h
        · omega
        · rcases List.mem_append.mp h with h | h
          · simp only [List.mem_cons, List.not_mem_nil, or_false] at h
            rcases h with h | h | h <;> simp_all
          · rcases List.mem_cons.mp h with h | h
            · omega
            · exact hr13 h
    unfold parse_headers
    rw [parse_headers_single_line _ _ h13,
      parse_status_badcode c1 c2 c3 reason h1 h2 h3 hr hbad, parse_headersAux_nil]
    simp [Except.map]
  · intro d1 d2 d3 h1 h2 h3 h4
    have h13 : (13 : Nat) ∉ bytes "HTTP/1.0" ++ 32 :: [48 + d1, 48 + d2, 48 + d3] := by
      intro hm
      rcases List.mem_append.mp hm with h | h
      · exact absurd h (by decide)
      · simp only [List.mem_cons, List.not_mem_nil, or_false] at h
        rcases h with h | h | h | h <;> omega
    unfold parse_headers
    rw [parse_headers_single_line _ _ h13,
      parse_status_noreason d1 d2 d3 h1 h2 h3 h4, parse_headersAux_nil]
    simp [Except.map]
  · intro t tail ht32 ht13 htl13 hlen hne
    have h13 : (13 : Nat) ∉ t ++ 32 :: tail := by
      intro hm
      rcases List.mem_append.mp hm with h | h
      · exact ht13 h
      · rcases List.mem_cons.mp h with h | h
        · omega
        · exact htl13 h
    unfold parse_headers
    rw [parse_headers_single_line _ _ h13,
      parse_status_badprefix t tail ht32 hlen hne, parse_headersAux_nil]
    simp [Except.map]

/-- Closed witness for the C3 contract: a good line with a space-free
reason, a 600 code, a reasonless line, and a non-HTTP prefix. -/
theorem status_line_parse_contract_witness :
    parse_headers ((bytes "HTTP/1.0" ++ 32 :: ([48 + 2, 48 + 0, 48 + 4] ++ 32 :: bytes "NoContent")) ++ [13, 10])
      = some [.ok (.status 204 (bytes "1.0") (bytes "NoContent"))] ∧
    parse_headers ((bytes "HTTP/1.0" ++ 32 :: ([54, 48, 48] ++ 32 :: bytes "OK")) ++ [13, 10])
      = some [.error (.WrongStatusCode [54, 48, 48])] ∧
    parse_headers ((bytes "HTTP/1.0" ++ 32 :: [48 + 2, 48 + 0, 48 + 0]) ++ [13, 10])
      = some [.error .WrongStatusReason] ∧
    parse_headers ((bytes "XTTP/1.0" ++ 32 :: bytes "200 OK") ++ [13, 10])
      = some [.error (.WrongStatusHeader ((bytes "XTTP/1.0").take 4))] := by
  obtain ⟨a, b, c, d⟩ := status_line_parse_contract
  exact ⟨a 2 0 4 (bytes "NoContent") (by omega) (by omega) (by omega) (by omega)
      (by decide) (by decide),
    b 54 48 48 (bytes "OK") (by omega) (by omega) (by omega) (by omega) (by omega)
      (by omega) (by decide) (by decide) (by omega),
    c 2 0 0 (by omega) (by omega) (by omega) (by omega),
    d (bytes "XTTP/1.0") (bytes "200 OK") (by decide) (by decide) (by decide)
      (by decide) (by decide)⟩

/-- C4 counterexample: in the block `HTTP/1.0 200 OK\r\nk: bc \r\n\r\n` the
header value source bytes are ` bc ` — trimming the surrounding spaces
should give `bc` — but `rtrim` slices `len - 2` and the parser yields `b`,
dropping a non-space byte. -/
theorem rtrim_drops_extra_byte :
    parse_headers (bytes "HTTP/1.0 200 OK\r\nk: bc \r\n\r\n")
      = some [.ok (.status 200 (bytes "1.0") (bytes "OK")),
          .ok (.header (bytes "k") (bytes "b"))] ∧
    bytes "b" ≠ bytes "bc" := by
  constructor
  · simp [parse_headers, parse_headersAux, parse_status, parse_header, bytes,
      findCRLF, splitOnByte, Except.map, rtrim, ltrim]
  · decide

/-- C4 (amended): for header blocks whose `name:value` lines each contain a
single colon and whose name and value segments do not end in a space byte,
the parser yields the status item then the N header items in order, each
segment with exactly its leading spaces removed; a nonempty line without a
colon yields `WrongHeader` carrying the trimmed line. -/
theorem header_block_parse_contract :
    (∀ (d1 d2 d3 : Nat) (reason : List Nat) (hdrs : List (List Nat × List Nat)),
      1 ≤ d1 → d1 ≤ 5 → d2 ≤ 9 → d3 ≤ 9 →
      32 ∉ reason → 13 ∉ reason →
      (∀ nv ∈ hdrs, 58 ∉ nv.1 ∧ 58 ∉ nv.2 ∧ 13 ∉ nv.1 ∧ 13 ∉ nv.2 ∧
        nv.1.getLast? ≠ some 32 ∧ nv.2.getLast? ≠ some 32) →
      parse_headers ((bytes "HTTP/1.0" ++ 32 :: ([48 + d1, 48 + d2, 48 + d3] ++ 32 :: reason)) ++ 13 :: 10 ::
          ((hdrs.map fun nv => nv.1 ++ 58 :: nv.2 ++ [13, 10]).flatten ++ [13, 10]))
        = some (.ok (.status (100 * d1 + 10 * d2 + d3) (bytes "1.0") reason)
            :: hdrs.map fun nv => .ok (.header (ltrim nv.1) (ltrim nv.2)))) ∧
    (∀ (line : List Nat), 58 ∉ line → 13 ∉ line → line ≠ [] → line.getLast? ≠ some 32 →
      parse_headers ((bytes "HTTP/1.0" ++ 32 :: ([48 + 2, 48 + 0, 48 + 0] ++ 32 :: bytes "OK")) ++ 13 :: 10 ::
          (line ++ 13 :: 10 :: [13, 10]))
        = some [.ok (.status 200 (bytes "1.0") (bytes "OK")),
            .error (.WrongHeader (ltrim line))]) := by
  constructor
  · intro d1 d2 d3 reason hdrs h1 h2 h3 h4 hr hr13 hh
    have h13 : (13 : Nat) ∉ bytes "HTTP/1.0" ++ 32 :: ([48 + d1, 48 + d2, 48 + d3] ++ 32 :: reason) := by
      intro hm
      rcases List.mem_append.mp hm with h | h
      · exact absurd h (by decide)
      · rcases List.mem_cons.mp h with h | h
        · omega
        · rcases List.mem_append.mp h with h | h
          · simp only [List.mem_cons, List.not_mem_nil, or_false] at h
            rcases h with h | h | h <;> omega
          · rcases List.mem_cons.mp h with h | h
            · omega
            · exact hr13 h
    unfold parse_headers
    rw [parse_headers_single_line _ _ h13,
      parse_status_ok d1 d2 d3 reason h1 h2 h3 h4 hr,
      header_lines_parse hdrs hh]
    simp [Except.map]
  · intro line hc h13l hne htr
    have h13 : (13 : Nat) ∉ bytes "HTTP/1.0" ++ 32 :: ([48 + 2, 48 + 0, 48 + 0] ++ 32 :: bytes "OK") := by
      decide
    unfold parse_headers
    rw [parse_headers_single_line _ _ h13,
      parse_status_ok 2 0 0 (bytes "OK") (by omega) (by omega) (by omega) (by omega) (by decide),
      parse_headersAux_line line _ h13l hne,
      parse_header_nocolon line hc htr,
      parse_headersAux_term]
    simp [Except.map]

/-- Closed witness for the C4 contract: one kept header whose value has a
leading space, and one colon-free line. -/
theorem header_block_parse_contract_witness :
    parse_headers ((bytes "HTTP/1.0" ++ 32 :: ([48 + 2, 48 + 0, 48 + 0] ++ 32 :: bytes "OK")) ++ 13 :: 10 ::
        (([(bytes "K", bytes " v")].map fun nv => nv.1 ++ 58 :: nv.2 ++ [13, 10]).flatten ++ [13, 10]))
      = some [.ok (.status 200 (bytes "1.0") (bytes "OK")),
          .ok (.header (bytes "K") (bytes "v"))] ∧
    parse_headers ((bytes "HTTP/1.0" ++ 32 :: ([48 + 2, 48 + 0, 48 + 0] ++ 32 :: bytes "OK")) ++ 13 :: 10 ::
        (bytes "nocolon" ++ 13 :: 10 :: [13, 10]))
      = some [.ok (.status 200 (bytes "1.0") (bytes "OK")),
          .error (.WrongHeader (bytes "nocolon"))] := by
  obtain ⟨a, b⟩ := header_block_parse_contract
  exact ⟨a 2 0 0 (bytes "OK") [(bytes "K", bytes " v")] (by omega) (by omega)
      (by omega) (by omega) (by decide) (by decide) (by decide),
    b (bytes "nocolon") (by decide) (by decide) (by decide) (by decide)⟩


/-- A successfully parsed scheme string is returned unchanged. -/
theorem parseScheme_eq (s sc : List Nat) (h : parseScheme s = some sc) : sc = s := by
  cases s with
  | nil => simp [parseScheme] at h
  | cons b rest =>
    by_cases hc : (isAlpha b && rest.all isSchemeChar) = true
    · simp only [parseScheme, if_pos hc, Option.some.injEq] at h
      exact h.symm
    · rw [parseScheme, if_neg hc] at h
      exact Option.noConfusion h

theorem splitAtLast_not_mem (sep : Nat) (l : List Nat) (h : sep ∉ l) :
    splitAtLast sep l = none := by
  induction l with
  | nil => rfl
  | cons x xs ih =>
    have hx : ¬ x = sep := fun e => h (by simp [e])
    have h2 : sep ∉ xs := fun e => h (by simp [e])
    simp only [splitAtLast, ih h2, if_neg hx]

theorem splitAtLast_append (l1 l2 : List Nat) (sep : Nat) (h : sep ∉ l2) :
    splitAtLast sep (l1 ++ sep :: l2) = some (l1, l2) := by
  induction l1 with
  | nil => simp [splitAtLast, splitAtLast_not_mem sep l2 h]
  | cons x xs ih =>
    simp only [List.cons_append, splitAtLast, List.append_eq, ih]

/-- Every byte the decimal printer emits is an ASCII digit. -/
theorem portPrint_digits (n : Nat) : ∀ b ∈ portPrint n, 48 ≤ b ∧ b ≤ 57 := by
  induction n using Nat.strong_induction_on with
  | _ n ih =>
    intro b hb
    rw [portPrint.eq_def] at hb
    by_cases h : n < 10
    · rw [if_pos h] at hb
      simp only [List.mem_cons, List.not_mem_nil, or_false] at hb
      omega
    · rw [if_neg h] at hb
      rcases List.mem_append.mp hb with hm | hm
      · exact ih (n / 10) (Nat.div_lt_self (by omega) (by omega)) b hm
      · simp only [List.mem_cons, List.not_mem_nil, or_false] at hm
        have := Nat.mod_lt n (show 0 < 10 by omega)
        omega

theorem digitsVal_append_digit (l : List Nat) (d : Nat) :
    digitsVal (l ++ [d]) = digitsVal l * 10 + (d - 48) := by
  simp [digitsVal, List.foldl_append]

/-- Printing then reading back a port value is the identity. -/
theorem portPrint_val (n : Nat) : digitsVal (portPrint n) = n := by
  induction n using Nat.strong_induction_on with
  | _ n ih =>
    rw [portPrint.eq_def]
    by_cases h : n < 10
    · rw [if_pos h]
      simp [digitsVal]
    · rw [if_neg h, digitsVal_append_digit,
        ih (n / 10) (Nat.div_lt_self (by omega) (by omega))]
      omega

theorem portPrint_ne_nil (n : Nat) : portPrint n ≠ [] := by
  rw [portPrint.eq_def]
  by_cases h : n < 10
  · simp [if_pos h]
  · simp [if_neg h]

/-- A valid host contains neither `:` nor `@`. -/
theorem validHost_no_sep (h : List Nat) (hv : validHost h = true) :
    58 ∉ h ∧ 64 ∉ h := by
  have hall : ∀ b ∈ h, isHostChar b = true := by
    simp only [validHost, Bool.and_eq_true] at hv
    exact List.all_eq_true.mp hv.2
  exact ⟨fun hm => absurd (hall 58 hm) (by decide),
    fun hm => absurd (hall 64 hm) (by decide)⟩

/-- `parseAuthority` on an `@`-free string, with the userinfo split
discharged. -/
theorem parseAuthority_no_at (s : List Nat) (h64 : 64 ∉ s) :
    parseAuthority s
      = match splitAtLast 58 s with
        | some (hst, prt) =>
          match parsePort prt with
          | some p => if validHost hst = true then some ⟨none, hst, some p⟩ else none
          | none => none
        | none => if validHost s = true then some ⟨none, s, none⟩ else none := by
  unfold parseAuthority
  rw [splitAtLast_not_mem 64 s h64]

/-- Parsing `host:port` as the code formats it recovers the host and port. -/
theorem parseAuthority_build (h : List Nat) (p : Nat)
    (hv : validHost h = true) (hp : p < 65536) :
    parseAuthority (h ++ 58 :: portPrint p) = some ⟨none, h, some p⟩ := by
  obtain ⟨h58, h64⟩ := validHost_no_sep h hv
  have hp64 : (64 : Nat) ∉ portPrint p := fun hm => by
    have := portPrint_digits p 64 hm; omega
  have hp58 : (58 : Nat) ∉ portPrint p := fun hm => by
    have := portPrint_digits p 58 hm; omega
  have hs64 : splitAtLast 64 (h ++ 58 :: portPrint p) = none := by
    apply splitAtLast_not_mem
    intro hm
    rcases List.mem_append.mp hm with hm | hm
    · exact h64 hm
    · rcases List.mem_cons.mp hm with hm | hm
      · omega
      · exact hp64 hm
  have hs58 : splitAtLast 58 (h ++ 58 :: portPrint p) = some (h, portPrint p) :=
    splitAtLast_append h (portPrint p) 58 hp58
  have hpp : parsePort (portPrint p) = some p := by
    unfold parsePort
    rw [if_pos]
    · rw [portPrint_val]
    · simp only [Bool.and_eq_true, Bool.not_eq_eq_eq_not, Bool.not_false]
      refine ⟨⟨?_, ?_⟩, ?_⟩
      · simp [List.isEmpty_iff, portPrint_ne_nil]
      · exact List.all_eq_true.mpr fun b hb => by
          have := portPrint_digits p b hb
          simp [isDigitByte]
          omega
      · simp [portPrint_val]
        omega
  rw [parseAuthority_no_at _ (by
    intro hm
    rcases List.mem_append.mp hm with hm | hm
    · exact h64 hm
    · rcases List.mem_cons.mp hm with hm | hm
      · omega
      · exact hp64 hm), hs58]
  simp only [hpp, if_pos hv]

/-- Parsing a bare valid host yields it with no port. -/
theorem parseAuthority_host (h : List Nat) (hv : validHost h = true) :
    parseAuthority h = some ⟨none, h, none⟩ := by
  obtain ⟨h58, h64⟩ := validHost_no_sep h hv
  rw [parseAuthority_no_at h h64, splitAtLast_not_mem 58 h h58]
  simp only [if_pos hv]

/-- Whatever `@`-free string parses with no port was taken whole as the
host. -/
theorem parseAuthority_port_none (s : List Nat) (a : Authority) (h64 : 64 ∉ s)
    (hpa : parseAuthority s = some a) (hnp : a.port = none) : a.host = s := by
  rw [parseAuthority_no_at s h64] at hpa
  split at hpa
  · split at hpa
    · split at hpa
      · obtain rfl := Option.some.inj hpa
        simp at hnp
      · exact Option.noConfusion hpa
    · exact Option.noConfusion hpa
  · split at hpa
    · obtain rfl := Option.some.inj hpa
      rfl
    · exact Option.noConfusion hpa

/-- Whatever `@`-free string parses after appending `:port` keeps the host
and reads back the port. -/
theorem parseAuthority_append_port (h : List Nat) (port : Nat) (a : Authority)
    (h64 : 64 ∉ h)
    (hpa : parseAuthority (h ++ 58 :: portPrint port) = some a) :
    a.host = h ∧ a.port = some port := by
  have hp64 : (64 : Nat) ∉ portPrint port := fun hm => by
    have := portPrint_digits port 64 hm; omega
  have hp58 : (58 : Nat) ∉ portPrint port := fun hm => by
    have := portPrint_digits port 58 hm; omega
  have hs64 : splitAtLast 64 (h ++ 58 :: portPrint port) = none := by
    apply splitAtLast_not_mem
    intro hm
    rcases List.mem_append.mp hm with hm | hm
    · exact h64 hm
    · rcases List.mem_cons.mp hm with hm | hm
      · omega
      · exact hp64 hm
  have hs58 : splitAtLast 58 (h ++ 58 :: portPrint port) = some (h, portPrint port) :=
    splitAtLast_append h (portPrint port) 58 hp58
  have hno : (64 : Nat) ∉ h ++ 58 :: portPrint port := by
    intro hm
    rcases List.mem_append.mp hm with hm | hm
    · exact h64 hm
    · rcases List.mem_cons.mp hm with hm | hm
      · omega
      · exact hp64 hm
  have key : parseAuthority (h ++ 58 :: portPrint port)
      = match parsePort (portPrint port) with
        | some p => if validHost h = true then
            some (⟨none, h, some p⟩ : Authority) else none
        | none => none := by
    rw [parseAuthority_no_at _ hno, hs58]
  rw [key] at hpa
  split at hpa
  · rename_i p hpp
    have hq : p = port := by
      unfold parsePort at hpp
      by_cases hcond : (!(portPrint port).isEmpty &&
          (portPrint port).all isDigitByte && digitsVal (portPrint port) < 65536) = true
      · rw [if_pos hcond] at hpp
        have := portPrint_val port
        simp only [Option.some.injEq] at hpp
        omega
      · rw [if_neg hcond] at hpp
        exact Option.noConfusion hpp
    split at hpa
    · obtain rfl := Option.some.inj hpa
      exact ⟨rfl, by rw [hq]⟩
    · exact Option.noConfusion hpa
  · exact Option.noConfusion hpa


/-- `from_parts` either accepts the parts unchanged or rejects them. -/
theorem from_parts_some (p u : Uri) (h : Uri.from_parts p = some u) : u = p := by
  unfold Uri.from_parts at h
  split at h
  · split at h
    · exact Option.noConfusion h
    · exact (Option.some.inj h).symm
  · split at h
    · exact Option.noConfusion h
    · exact (Option.some.inj h).symm

/-- `update_uri` installs the recomposed URI on success. -/
theorem update_uri_ok (d : Destination) (f : Uri → Uri) (u : Uri)
    (h : Uri.from_parts (f d.uri) = some u) :
    d.update_uri f = (.ok (), ⟨u⟩) := by
  simp only [Destination.update_uri, h]

/-- `update_uri` restores the saved URI on failure. -/
theorem update_uri_err (d : Destination) (f : Uri → Uri)
    (h : Uri.from_parts (f d.uri) = none) :
    d.update_uri f = (.error .Parse, d) := by
  simp only [Destination.update_uri, h]

/-- C1 counterexample: on a Destination whose URI is the default `/` (no
authority, hence no host), `set_port(None)` reaches
`self.host().parse().expect("valid host without port should be valid
authority")` with the empty host string, whose parse fails — the call
panics (modelled `none`) instead of either applying the change or
returning a `Parse` error with the URI untouched. -/
theorem set_port_missing_host_panics :
    Destination.set_port_opt ⟨⟨none, none, some (bytes "/")⟩⟩ none = none := by
  simp [Destination.set_port_opt, Destination.host, parseAuthority, splitAtLast,
    validHost]


/-- `set_scheme` either fails restoring the state or succeeds installing
the scheme. -/
theorem set_scheme_spec (d : Destination) (s : List Nat) :
    d.set_scheme s = (.error .Parse, d) ∨
    ((d.set_scheme s).1 = .ok () ∧ (d.set_scheme s).2.scheme = s) := by
  cases hps : parseScheme s with
  | none =>
    left
    unfold Destination.set_scheme
    rw [hps]
  | some sc =>
    cases hfp : Uri.from_parts { d.uri with scheme := some sc } with
    | none =>
      left
      have e : d.set_scheme s = (.error .Parse, d) := by
        simp only [Destination.set_scheme, hps, Destination.update_uri, hfp]
      exact e
    | some u =>
      right
      have e : d.set_scheme s = (.ok (), ⟨u⟩) := by
        simp only [Destination.set_scheme, hps, Destination.update_uri, hfp]
      obtain rfl := from_parts_some _ _ hfp
      rw [e]
      exact ⟨rfl, by simp [Destination.scheme, parseScheme_eq s sc hps]⟩

/-- `set_host` either fails restoring the state or succeeds installing the
host. -/
theorem set_host_spec (d : Destination) (h : List Nat) :
    d.set_host h = (.error .Parse, d) ∨
    ((d.set_host h).1 = .ok () ∧ (d.set_host h).2.host = h) := by
  by_cases hc : h.contains 64 = true
  · left
    unfold Destination.set_host
    rw [if_pos hc]
  · have h64 : (64 : Nat) ∉ h := fun hm => hc (by simpa using hm)
    cases hdp : d.port with
    | some port =>
      cases hpa : parseAuthority (h ++ 58 :: portPrint port) with
      | none =>
        left
        have e : d.set_host h = (.error .Parse, d) := by
          simp only [Destination.set_host, if_neg hc, hdp, hpa]
        exact e
      | some auth =>
        cases hfp : Uri.from_parts { d.uri with authority := some auth } with
        | none =>
          left
          have e : d.set_host h = (.error .Parse, d) := by
            simp only [Destination.set_host, if_neg hc, hdp, hpa,
              Destination.update_uri, hfp]
          exact e
        | some u =>
          right
          have e : d.set_host h = (.ok (), ⟨u⟩) := by
            simp only [Destination.set_host, if_neg hc, hdp, hpa,
              Destination.update_uri, hfp]
          obtain rfl := from_parts_some _ _ hfp
          rw [e]
          have hh := parseAuthority_append_port h port auth h64 hpa
          exact ⟨rfl, by simp [Destination.host, hh.1]⟩
    | none =>
      cases hpa : parseAuthority h with
      | none =>
        left
        have e : d.set_host h = (.error .Parse, d) := by
          simp only [Destination.set_host, if_neg hc, hdp, hpa]
        exact e
      | some auth =>
        by_cases hips : auth.port.isSome = true
        · left
          have e : d.set_host h = (.error .Parse, d) := by
            simp only [Destination.set_host, if_neg hc, hdp, hpa, if_pos hips]
          exact e
        · cases hfp : Uri.from_parts { d.uri with authority := some auth } with
          | none =>
            left
            have e : d.set_host h = (.error .Parse, d) := by
              simp only [Destination.set_host, if_neg hc, hdp, hpa, if_neg hips,
                Destination.update_uri, hfp]
            exact e
          | some u =>
            right
            have e : d.set_host h = (.ok (), ⟨u⟩) := by
              simp only [Destination.set_host, if_neg hc, hdp, hpa, if_neg hips,
                Destination.update_uri, hfp]
            obtain rfl := from_parts_some _ _ hfp
            rw [e]
            have hnone : auth.port = none := Option.not_isSome_iff_eq_none.mp hips
            have hh := parseAuthority_port_none h auth h64 hpa hnone
            exact ⟨rfl, by simp [Destination.host, hh]⟩

/-- C1 (amended): `set_scheme` and `set_host` are transactional for every
Destination — on success the new value is observable through
`scheme()`/`host()`, on failure the returned state is byte-for-byte the
pre-call one — with `set_host` failing on an embedded `@` and failing when
the Destination has no port but the new host string carries one.
`set_port` fully applies (new port observable, host preserved) whenever
the URI has an authority whose host is valid and the parts recompose; on a
Destination without a parseable host it panics (see the counterexample)
rather than returning an error. -/
theorem destination_mutation_contract (d : Destination) (s h : List Nat) (p : Nat) :
    ((d.set_scheme s).1 = .ok () → (d.set_scheme s).2.scheme = s) ∧
    ((d.set_scheme s).1 = .error .Parse → (d.set_scheme s).2 = d) ∧
    ((d.set_host h).1 = .ok () → (d.set_host h).2.host = h) ∧
    ((d.set_host h).1 = .error .Parse → (d.set_host h).2 = d) ∧
    (h.contains 64 = true → d.set_host h = (.error .Parse, d)) ∧
    (∀ a, d.port = none → parseAuthority h = some a → a.port.isSome →
      d.set_host h = (.error .Parse, d)) ∧
    (∀ auth, d.uri.authority = some auth → validHost auth.host = true → p < 65536 →
      (d.uri.scheme.isSome ∨ d.uri.path_and_query = none) →
      ∃ d2, d.set_port_opt (some p) = some d2 ∧ d2.port = some p ∧ d2.host = d.host) ∧
    (∀ auth, d.uri.authority = some auth → validHost auth.host = true →
      (d.uri.scheme.isSome ∨ d.uri.path_and_query = none) →
      ∃ d2, d.set_port_opt none = some d2 ∧ d2.port = none ∧ d2.host = d.host) := by
  refine ⟨?_, ?_, ?_, ?_, ?_, ?_, ?_, ?_⟩
  · intro hok
    rcases set_scheme_spec d s with he | ⟨_, hv⟩
    · rw [he] at hok
      exact absurd hok (by simp)
    · exact hv
  · intro herr
    rcases set_scheme_spec d s with he | ⟨hok, _⟩
    · rw [he]
    · rw [hok] at herr
      exact Except.noConfusion herr
  · intro hok
    rcases set_host_spec d h with he | ⟨_, hv⟩
    · rw [he] at hok
      exact absurd hok (by simp)
    · exact hv
  · intro herr
    rcases set_host_spec d h with he | ⟨hok, _⟩
    · rw [he]
    · rw [hok] at herr
      exact Except.noConfusion herr
  · intro hc
    unfold Destination.set_host
    rw [if_pos hc]
  · intro a hdp hpa hips
    by_cases hc : h.contains 64 = true
    · unfold Destination.set_host
      rw [if_pos hc]
    · have e : d.set_host h = (.error .Parse, d) := by
        simp only [Destination.set_host, if_neg hc, hdp, hpa, if_pos hips]
      exact e
  · intro auth hauth hv hp hsp
    have hd : d.host = auth.host := by simp [Destination.host, hauth]
    have hpa := parseAuthority_build auth.host p hv hp
    have hfp : Uri.from_parts
        { d.uri with authority := some (⟨none, auth.host, some p⟩ : Authority) }
        = some { d.uri with authority := some (⟨none, auth.host, some p⟩ : Authority) } := by
      by_cases hsch : d.uri.scheme.isSome = true
      · simp [Uri.from_parts, hsch]
      · rcases hsp with hs | hpq
        · exact absurd hs hsch
        · simp [Uri.from_parts, hsch, hpq]
    have e : d.set_port_opt (some p)
        = some ⟨{ d.uri with authority := some (⟨none, auth.host, some p⟩ : Authority) }⟩ := by
      simp only [Destination.set_port_opt, hd, hpa, Destination.update_uri, hfp]
    exact ⟨_, e, by simp [Destination.port], by simp [Destination.host, hauth]⟩
  · intro auth hauth hv hsp
    have hd : d.host = auth.host := by simp [Destination.host, hauth]
    have hpa := parseAuthority_host auth.host hv
    have hfp : Uri.from_parts
        { d.uri with authority := some (⟨none, auth.host, none⟩ : Authority) }
        = some { d.uri with authority := some (⟨none, auth.host, none⟩ : Authority) } := by
      by_cases hsch : d.uri.scheme.isSome = true
      · simp [Uri.from_parts, hsch]
      · rcases hsp with hs | hpq
        · exact absurd hs hsch
        · simp [Uri.from_parts, hsch, hpq]
    have e : d.set_port_opt none
        = some ⟨{ d.uri with authority := some (⟨none, auth.host, none⟩ : Authority) }⟩ := by
      simp only [Destination.set_port_opt, hd, hpa, Destination.update_uri, hfp]
    exact ⟨_, e, by simp [Destination.port], by simp [Destination.host, hauth]⟩


/-- Closed witness for the C1 contract: on a Destination for
`http://a.b/`, `set_host` rejects an embedded `@` leaving the state
untouched, and `set_port(Some 8080)` fully applies. -/
theorem destination_mutation_contract_witness :
    ((bytes "h@st").contains 64 = true ∧
      Destination.set_host ⟨⟨some (bytes "http"), some ⟨none, bytes "a.b", none⟩,
          some (bytes "/")⟩⟩ (bytes "h@st")
        = (.error .Parse, ⟨⟨some (bytes "http"), some ⟨none, bytes "a.b", none⟩,
            some (bytes "/")⟩⟩)) ∧
    (∃ d2, Destination.set_port_opt ⟨⟨some (bytes "http"),
        some ⟨none, bytes "a.b", none⟩, some (bytes "/")⟩⟩ (some 8080) = some d2 ∧
      d2.port = some 8080 ∧
      d2.host = Destination.host ⟨⟨some (bytes "http"),
        some ⟨none, bytes "a.b", none⟩, some (bytes "/")⟩⟩) := by
  obtain ⟨_, _, _, _, c5, _, c7, _⟩ := destination_mutation_contract
    ⟨⟨some (bytes "http"), some ⟨none, bytes "a.b", none⟩, some (bytes "/")⟩⟩
    (bytes "ws") (bytes "h@st") 8080
  exact ⟨⟨by decide, c5 (by decide)⟩,
    c7 ⟨none, bytes "a.b", none⟩ rfl (by decide) (by omega) (Or.inl rfl)⟩



theorem pollAttempt_zero_fail (w : World) (att : Attempt)
    (h0 : att.remaining = 0) (hf : (w att.addr).ok = false) :
    pollAttempt w att = .refused := by
  simp [pollAttempt, h0, hf]

theorem pollAttempt_zero_ok (w : World) (att : Attempt)
    (h0 : att.remaining = 0) (hok : (w att.addr).ok = true) :
    pollAttempt w att = .connected := by
  simp [pollAttempt, h0, hok]

theorem pollAttempt_pos (w : World) (att : Attempt) (h : ¬ att.remaining = 0) :
    pollAttempt w att = .waiting ⟨att.addr, att.remaining - 1⟩ := by
  simp [pollAttempt, h]

/-- Driving an all-failing batch either exhausts it (the recorded error is
returned) or stays pending with a strictly smaller measure. -/
theorem remoteGo_fail (w : World) :
    ∀ (addrs : List Nat) (att : Attempt),
    (∀ a ∈ addrs, (w a).ok = false) → (w att.addr).ok = false →
    (remoteGo w att addrs).1 = .failed ∨
    ((remoteGo w att addrs).1 = .notReady ∧
      FailRemote w (remoteGo w att addrs).2 ∧
      remoteM w (remoteGo w att addrs).2 + 1
        ≤ (att.remaining + 1) + (addrs.map fun a => (w a).pending + 1).sum) := by
  intro addrs
  induction addrs with
  | nil =>
    intro att h1 hf
    by_cases hr : att.remaining = 0
    · left
      simp [remoteGo, pollAttempt_zero_fail w att hr hf]
    · right
      have e : remoteGo w att []
          = (.notReady, ⟨[], some ⟨att.addr, att.remaining - 1⟩⟩) := by
        simp [remoteGo, pollAttempt_pos w att hr]
      rw [e]
      refine ⟨rfl, ⟨by simp, ?_, by simp⟩, ?_⟩
      · intro att2 he
        cases he
        exact hf
      · simp [remoteM]
        omega
  | cons a rest ih =>
    intro att h1 hf
    have ha : (w a).ok = false := h1 a (by simp)
    have hrest : ∀ x ∈ rest, (w x).ok = false := fun x hx => h1 x (by simp [hx])
    by_cases hr : att.remaining = 0
    · have e : remoteGo w att (a :: rest) = remoteGo w (mkAttempt w a) rest := by
        simp [remoteGo, pollAttempt_zero_fail w att hr hf]
      rw [e]
      have step := ih (mkAttempt w a) hrest (by simpa [mkAttempt] using ha)
      rcases step with h | ⟨hn, hfr, hm⟩
      · exact Or.inl h
      · refine Or.inr ⟨hn, hfr, ?_⟩
        have hmk : (mkAttempt w a).remaining = (w a).pending := rfl
        rw [hmk] at hm
        simp only [List.map_cons, List.sum_cons]
        omega
    · right
      have e : remoteGo w att (a :: rest)
          = (.notReady, ⟨a :: rest, some ⟨att.addr, att.remaining - 1⟩⟩) := by
        simp [remoteGo, pollAttempt_pos w att hr]
      rw [e]
      refine ⟨rfl, ⟨h1, ?_, by simp⟩, ?_⟩
      · intro att2 he
        cases he
        exact hf
      · simp [remoteM]
        omega

/-- The first element of a good list is the winner or a failing address
ahead of a good tail. -/
theorem goodlist_start (w : World) (good a : Nat) (rest : List Nat)
    (hgl : GoodList w good (a :: rest)) :
    (a = good ∧ (w good).ok = true) ∨
    ((w a).ok = false ∧ GoodList w good rest) := by
  obtain ⟨pre, post, hp, hpre, hok⟩ := hgl
  cases pre with
  | nil =>
    simp only [List.nil_append, List.cons.injEq] at hp
    exact Or.inl ⟨hp.1, hok⟩
  | cons p pre2 =>
    simp only [List.cons_append, List.cons.injEq] at hp
    refine Or.inr ⟨hp.1 ▸ hpre p (by simp), pre2, post, hp.2,
      fun x hx => hpre x (by simp [hx]), hok⟩

/-- Driving a batch that reaches the succeeding address `good` either
connects to it or stays pending with a strictly smaller measure. -/
theorem remoteGo_good (w : World) (good : Nat) :
    ∀ (addrs : List Nat) (att : Attempt),
    ((att.addr = good ∧ (w good).ok = true) ∨
      ((w att.addr).ok = false ∧ GoodList w good addrs)) →
    (remoteGo w att addrs).1 = .ready good ∨
    ((remoteGo w att addrs).1 = .notReady ∧
      GoodRemote w good (remoteGo w att addrs).2 ∧
      remoteM w (remoteGo w att addrs).2 + 1
        ≤ (att.remaining + 1) + (addrs.map fun a => (w a).pending + 1).sum) := by
  intro addrs
  induction addrs with
  | nil =>
    intro att hh
    rcases hh with ⟨heq, hok⟩ | ⟨hf, hgl⟩
    · by_cases hr : att.remaining = 0
      · left
        have hc : pollAttempt w att = .connected :=
          pollAttempt_zero_ok w att hr (by rw [heq]; exact hok)
        simp [remoteGo, hc, heq]
      · right
        have e : remoteGo w att []
            = (.notReady, ⟨[], some ⟨att.addr, att.remaining - 1⟩⟩) := by
          simp [remoteGo, pollAttempt_pos w att hr]
        rw [e]
        refine ⟨rfl, Or.inl ⟨heq, hok⟩, ?_⟩
        simp [remoteM]
        omega
    · exfalso
      obtain ⟨pre, post, hp, _, _⟩ := hgl
      cases pre with
      | nil => exact absurd hp (by simp)
      | cons q pre2 => exact absurd hp (by simp)
  | cons a rest ih =>
    intro att hh
    rcases hh with ⟨heq, hok⟩ | ⟨hf, hgl⟩
    · by_cases hr : att.remaining = 0
      · left
        have hc : pollAttempt w att = .connected :=
          pollAttempt_zero_ok w att hr (by rw [heq]; exact hok)
        simp [remoteGo, hc, heq]
      · right
        have e : remoteGo w att (a :: rest)
            = (.notReady, ⟨a :: rest, some ⟨att.addr, att.remaining - 1⟩⟩) := by
          simp [remoteGo, pollAttempt_pos w att hr]
        rw [e]
        refine ⟨rfl, Or.inl ⟨heq, hok⟩, ?_⟩
        simp [remoteM]
        omega
    · by_cases hr : att.remaining = 0
      · have e : remoteGo w att (a :: rest) = remoteGo w (mkAttempt w a) rest := by
          simp [remoteGo, pollAttempt_zero_fail w att hr hf]
        rw [e]
        have hsplit := goodlist_start w good a rest hgl
        have step := ih (mkAttempt w a) (by
          rcases hsplit with ⟨hga, hgo⟩ | ⟨hfa, hgr⟩
          · exact Or.inl ⟨by simp [mkAttempt, hga], hgo⟩
          · exact Or.inr ⟨by simpa [mkAttempt] using hfa, hgr⟩)
        rcases step with h | ⟨hn, hgr2, hm⟩
        · exact Or.inl h
        · refine Or.inr ⟨hn, hgr2, ?_⟩
          have hmk : (mkAttempt w a).remaining = (w a).pending := rfl
          rw [hmk] at hm
          simp only [List.map_cons, List.sum_cons]
          omega
      · right
        have e : remoteGo w att (a :: rest)
            = (.notReady, ⟨a :: rest, some ⟨att.addr, att.remaining - 1⟩⟩) := by
          simp [remoteGo, pollAttempt_pos w att hr]
        rw [e]
        refine ⟨rfl, Or.inr ⟨hf, hgl⟩, ?_⟩
        simp [remoteM]
        omega

/-- Lift of `remoteGo_fail` to `ConnectingTcpRemote::poll`. -/
theorem remotePoll_fail (w : World) (r : ConnectingTcpRemote)
    (hfr : FailRemote w r) :
    (ConnectingTcpRemote.poll w r).1 = .failed ∨
    ((ConnectingTcpRemote.poll w r).1 = .notReady ∧
      FailRemote w (ConnectingTcpRemote.poll w r).2 ∧
      remoteM w (ConnectingTcpRemote.poll w r).2 + 1 ≤ remoteM w r) := by
  obtain ⟨h1, h2, h3⟩ := hfr
  cases hc : r.current with
  | some att =>
    have e : ConnectingTcpRemote.poll w r = remoteGo w att r.addrs := by
      simp [ConnectingTcpRemote.poll, remotePollAux, hc]
    have hmr : remoteM w r
        = (att.remaining + 1) + (r.addrs.map fun a => (w a).pending + 1).sum := by
      simp [remoteM, hc]
    rcases remoteGo_fail w r.addrs att h1 (h2 att hc) with h | ⟨hn, hfr2, hm⟩
    · exact Or.inl (by rw [e]; exact h)
    · exact Or.inr ⟨by rw [e]; exact hn, by rw [e]; exact hfr2, by rw [e, hmr]; exact hm⟩
  | none =>
    cases ha : r.addrs with
    | nil => exact absurd ha (h3 hc)
    | cons a rest =>
      have e : ConnectingTcpRemote.poll w r = remoteGo w (mkAttempt w a) rest := by
        simp [ConnectingTcpRemote.poll, remotePollAux, hc, ha]
      have hmr : remoteM w r
          = ((mkAttempt w a).remaining + 1)
            + (rest.map fun x => (w x).pending + 1).sum := by
        simp [remoteM, hc, ha, mkAttempt]
      have ha2 : (w (mkAttempt w a).addr).ok = false := by
        simpa [mkAttempt] using h1 a (by simp [ha])
      have hrest : ∀ x ∈ rest, (w x).ok = false := fun x hx => h1 x (by simp [ha, hx])
      rcases remoteGo_fail w rest (mkAttempt w a) hrest ha2 with h | ⟨hn, hfr2, hm⟩
      · exact Or.inl (by rw [e]; exact h)
      · exact Or.inr ⟨by rw [e]; exact hn, by rw [e]; exact hfr2, by rw [e, hmr]; exact hm⟩

/-- Lift of `remoteGo_good` to `ConnectingTcpRemote::poll`. -/
theorem remotePoll_good (w : World) (good : Nat) (r : ConnectingTcpRemote)
    (hgr : GoodRemote w good r) :
    (ConnectingTcpRemote.poll w r).1 = .ready good ∨
    ((ConnectingTcpRemote.poll w r).1 = .notReady ∧
      GoodRemote w good (ConnectingTcpRemote.poll w r).2 ∧
      remoteM w (ConnectingTcpRemote.poll w r).2 + 1 ≤ remoteM w r) := by
  cases hc : r.current with
  | some att =>
    have hh : (att.addr = good ∧ (w good).ok = true) ∨
        ((w att.addr).ok = false ∧ GoodList w good r.addrs) := by
      have := hgr
      unfold GoodRemote at this
      rw [hc] at this
      exact this
    have e : ConnectingTcpRemote.poll w r = remoteGo w att r.addrs := by
      simp [ConnectingTcpRemote.poll, remotePollAux, hc]
    have hmr : remoteM w r
        = (att.remaining + 1) + (r.addrs.map fun a => (w a).pending + 1).sum := by
      simp [remoteM, hc]
    rcases remoteGo_good w good r.addrs att hh with h | ⟨hn, hgr2, hm⟩
    · exact Or.inl (by rw [e]; exact h)
    · exact Or.inr ⟨by rw [e]; exact hn, by rw [e]; exact hgr2, by rw [e, hmr]; exact hm⟩
  | none =>
    have hgl : GoodList w good r.addrs := by
      have := hgr
      unfold GoodRemote at this
      rw [hc] at this
      exact this
    cases ha : r.addrs with
    | nil =>
      exfalso
      rw [ha] at hgl
      obtain ⟨pre, post, hp, _, _⟩ := hgl
      cases pre with
      | nil => exact absurd hp (by simp)
      | cons q pre2 => exact absurd hp (by simp)
    | cons a rest =>
      rw [ha] at hgl
      have e : ConnectingTcpRemote.poll w r = remoteGo w (mkAttempt w a) rest := by
        simp [ConnectingTcpRemote.poll, remotePollAux, hc, ha]
      have hmr : remoteM w r
          = ((mkAttempt w a).remaining + 1)
            + (rest.map fun x => (w x).pending + 1).sum := by
        simp [remoteM, hc, ha, mkAttempt]
      have hh : ((mkAttempt w a).addr = good ∧ (w good).ok = true) ∨
          ((w (mkAttempt w a).addr).ok = false ∧ GoodList w good rest) := by
        rcases goodlist_start w good a rest hgl with ⟨hga, hgo⟩ | ⟨hfa, hgr2⟩
        · exact Or.inl ⟨by simp [mkAttempt, hga], hgo⟩
        · exact Or.inr ⟨by simpa [mkAttempt] using hfa, hgr2⟩
      rcases remoteGo_good w good rest (mkAttempt w a) hh with h | ⟨hn, hgr2, hm⟩
      · exact Or.inl (by rw [e]; exact h)
      · exact Or.inr ⟨by rw [e]; exact hn, by rw [e]; exact hgr2, by rw [e, hmr]; exact hm⟩


/-- Every poll of a `ConnectingTcp` satisfying the C5 invariant either
connects to the fallback winner or stays pending with a strictly smaller
measure and the invariant intact. -/
theorem ctp_progress (w : World) (good : Nat) (s : ConnectingTcp)
    (hinv : CtpInv w good s) :
    (ConnectingTcp.poll w s).1 = .ready good ∨
    ((ConnectingTcp.poll w s).1 = .notReady ∧
      CtpInv w good (ConnectingTcp.poll w s).2 ∧
      ctpM w (ConnectingTcp.poll w s).2 + 1 ≤ ctpM w s) := by
  cases hfb : s.fallback with
  | none =>
    have hg : GoodRemote w good s.preferred := by
      have := hinv
      unfold CtpInv at this
      rw [hfb] at this
      exact this
    have e : ConnectingTcp.poll w s
        = ((ConnectingTcpRemote.poll w s.preferred).1,
            ⟨(ConnectingTcpRemote.poll w s.preferred).2, none⟩) := by
      simp [ConnectingTcp.poll, hfb]
    rcases remotePoll_good w good s.preferred hg with h | ⟨hn, hg2, hm⟩
    · exact Or.inl (by rw [e]; exact h)
    · refine Or.inr ⟨by rw [e]; exact hn, ?_, ?_⟩
      · rw [e]
        unfold CtpInv
        exact hg2
      · rw [e]
        simp only [ctpM, hfb]
        simpa using hm
  | some fb =>
    have hig : FailRemote w s.preferred ∧ GoodRemote w good fb.remote := by
      have := hinv
      unfold CtpInv at this
      rw [hfb] at this
      exact this
    obtain ⟨hfr, hgr⟩ := hig
    have hms : ctpM w s
        = remoteM w s.preferred + (fb.delay + remoteM w fb.remote + 1) := by
      simp [ctpM, hfb]
    rcases remotePoll_fail w s.preferred hfr with hpf | ⟨hpn, hpfr, hpm⟩
    · have e : ConnectingTcp.poll w s
          = ((ConnectingTcpRemote.poll w fb.remote).1,
              ⟨(ConnectingTcpRemote.poll w fb.remote).2, none⟩) := by
        simp [ConnectingTcp.poll, hfb, hpf]
      rcases remotePoll_good w good fb.remote hgr with h | ⟨hn, hg2, hm⟩
      · exact Or.inl (by rw [e]; exact h)
      · refine Or.inr ⟨by rw [e]; exact hn, ?_, ?_⟩
        · rw [e]
          unfold CtpInv
          exact hg2
        · rw [e, hms]
          simp only [ctpM]
          omega
    · by_cases hd : fb.delay = 0
      · rcases remotePoll_good w good fb.remote hgr with h | ⟨hn2, hg2, hm2⟩
        · left
          simp [ConnectingTcp.poll, hfb, hpn, hd, h]
        · have e : ConnectingTcp.poll w s
              = (.notReady, ⟨(ConnectingTcpRemote.poll w s.preferred).2,
                  some ⟨0, (ConnectingTcpRemote.poll w fb.remote).2⟩⟩) := by
            simp [ConnectingTcp.poll, hfb, hpn, hd, hn2]
          refine Or.inr ⟨by rw [e], ?_, ?_⟩
          · rw [e]
            unfold CtpInv
            exact ⟨hpfr, hg2⟩
          · rw [e, hms]
            simp only [ctpM]
            omega
      · have e : ConnectingTcp.poll w s
            = (.notReady, ⟨(ConnectingTcpRemote.poll w s.preferred).2,
                some ⟨fb.delay - 1, fb.remote⟩⟩) := by
          simp [ConnectingTcp.poll, hfb, hpn, hd]
        refine Or.inr ⟨by rw [e], ?_, ?_⟩
        · rw [e]
          unfold CtpInv
          exact ⟨hpfr, hgr⟩
        · rw [e, hms]
          simp only [ctpM]
          omega

/-- Repeatedly polling from any invariant state reaches the fallback
winner within the measure. -/
theorem ctp_run_reaches (w : World) (good : Nat) :
    ∀ (n : Nat) (s : ConnectingTcp), CtpInv w good s → ctpM w s < n →
    ∃ m, ConnectingTcp.run w s m = .ready good := by
  intro n
  induction n with
  | zero => intro s _ h; omega
  | succ k ih =>
    intro s hinv hm
    rcases ctp_progress w good s hinv with h | ⟨hn, hinv2, hdec⟩
    · refine ⟨1, ?_⟩
      cases hps : ConnectingTcp.poll w s with
      | mk r1 s2 =>
        have h2 : r1 = RemotePoll.ready good := by rw [hps] at h; exact h
        subst h2
        simp [ConnectingTcp.run, hps]
    · obtain ⟨m, hm2⟩ := ih (ConnectingTcp.poll w s).2 hinv2 (by omega)
      refine ⟨m + 1, ?_⟩
      cases hps : ConnectingTcp.poll w s with
      | mk r1 s2 =>
        have hn2 : r1 = RemotePoll.notReady := by rw [hps] at hn; exact hn
        rw [hps] at hm2
        subst hn2
        simp only [ConnectingTcp.run, hps]
        exact hm2


/-- C5: with a preferred batch whose every address is scripted to fail
(each after finitely many pending polls), a fallback batch whose addresses
before `good` all fail while `good` connects, and a fallback delay shorter
than the total time the preferred batch needs to finish failing, repeated
polling of the connector eventually yields the stream connected to the
fallback address `good`. -/
theorem happy_eyeballs_fallback_wins (w : World) (prefAddrs pre post : List Nat)
    (good : Nat) (d : Nat)
    (hpref_ne : prefAddrs ≠ [])
    (hpref : ∀ a ∈ prefAddrs, (w a).ok = false)
    (hpre : ∀ a ∈ pre, (w a).ok = false)
    (hgood : (w good).ok = true)
    (hdelay : d < (prefAddrs.map fun a => (w a).pending + 1).sum) :
    ∃ n, ConnectingTcp.run w (ConnectingTcp.init prefAddrs (pre ++ good :: post) d) n
      = .ready good := by
  apply ctp_run_reaches w good
    (ctpM w (ConnectingTcp.init prefAddrs (pre ++ good :: post) d) + 1)
  · unfold CtpInv ConnectingTcp.init
    refine ⟨⟨hpref, ?_, fun _ => hpref_ne⟩, ?_⟩
    · intro att he
      cases he
    · unfold GoodRemote
      exact ⟨pre, post, rfl, hpre, hgood⟩
  · omega

/-- Closed witness for C5: preferred addresses 1 and 2 each fail after two
pending polls, fallback address 3 connects after one, the delay is one
poll. -/
theorem happy_eyeballs_fallback_wins_witness :
    ∃ n, ConnectingTcp.run (fun a => if a ≤ 2 then ⟨2, false⟩ else ⟨1, true⟩)
      (ConnectingTcp.init [1, 2] ([] ++ 3 :: []) 1) n = .ready 3 := by
  exact happy_eyeballs_fallback_wins (fun a => if a ≤ 2 then ⟨2, false⟩ else ⟨1, true⟩)
    [1, 2] [] [] 3 1 (by decide) (by decide) (by decide) (by decide) (by decide)

end SimpleHttp
